import Mathlib

/-!
Shallow embedding of the awesome-agent-skills-mcp ingestion and resolution
engine: the skill registry with priority-based override resolution, the
parameter validator, the snapshot round-trip, the git sync controller and
its auto-sync tick, the template substitution of the skill executor, and
the markdown skill parser.  Strings are modelled as `String` or as
`List Char`; the JavaScript regular-expression scans of the source are
embedded as deterministic character scanners (greedy character classes,
leftmost match); dates are integer millisecond timestamps.
-/

namespace AASM

/-- JavaScript whitespace class membership for the regular expressions of
the source: space, tab, newline, carriage return, vertical tab, form feed. -/
def isWSChar (c : Char) : Bool :=
  c = ' ' || c = '\t' || c = '\n' || c = '\r' || c = Char.ofNat 11 || c = Char.ofNat 12

/-- Word-character class of the JavaScript regular expressions: ASCII
letters, digits and underscore. -/
def isWordChar (c : Char) : Bool :=
  (48 ≤ c.toNat && c.toNat ≤ 57) || (65 ≤ c.toNat && c.toNat ≤ 90) ||
  (97 ≤ c.toNat && c.toNat ≤ 122) || c = '_'

/-- Lower-case ASCII letter or digit: the characters kept by the skill-id
normalization character class in `normalizeSkillId`. -/
def isKeepChar (c : Char) : Bool :=
  (97 ≤ c.toNat && c.toNat ≤ 122) || (48 ≤ c.toNat && c.toNat ≤ 57)

/-- ASCII upper-case letter. -/
def isUpperAZ (c : Char) : Bool :=
  65 ≤ c.toNat && c.toNat ≤ 90

/-- ASCII lower-casing, the effect of JavaScript `toLowerCase` on the
ASCII range. -/
def lowerChar (c : Char) : Char :=
  if isUpperAZ c then Char.ofNat (c.toNat + 32) else c

/-- Effect of replacing every maximal run of characters outside `[a-z0-9]`
by a single dash, as `replace` with a global `[^a-z0-9]+` pattern does in
`normalizeSkillId`.  The boolean records whether the previous input
character was part of a run already replaced. -/
def collapseAux : Bool → List Char → List Char
  | _, [] => []
  | inRun, c :: cs =>
    if isKeepChar c then c :: collapseAux false cs
    else if inRun then collapseAux true cs
    else '-' :: collapseAux true cs

/-- Collapse every maximal run of non-`[a-z0-9]` characters to one dash. -/
def collapseRuns (s : List Char) : List Char :=
  collapseAux false s

/-- Strip the leading and the trailing dash run, the effect of replacing
the anchored dash-run alternatives by the empty string. -/
def trimDashes (s : List Char) : List Char :=
  ((s.dropWhile (fun c => c = '-')).reverse.dropWhile (fun c => c = '-')).reverse

/-- Skill identifier normalization of the parser: lower-case, collapse
non-alphanumeric runs to one dash, strip leading and trailing dashes. -/
def normalizeSkillId (ident : List Char) : List Char :=
  trimDashes (collapseRuns (ident.map lowerChar))

/-- Adjacency relation used to state that the normalized identifier never
holds two adjacent non-alphanumeric characters. -/
def sepOK (a b : Char) : Prop :=
  isKeepChar a = true ∨ isKeepChar b = true

/-- Parameter type universe of the parameter schema. -/
inductive ParameterType
  | string
  | number
  | boolean
  | object
  | array
deriving DecidableEq

/-- JavaScript runtime value, the shape of the `unknown` parameter values
received by the registry and the executor. -/
inductive JSValue
  | str (s : String)
  | num (n : Int)
  | bool (b : Bool)
  | obj (fields : List (String × JSValue))
  | arr (elems : List JSValue)
  | null

mutual

/-- Decidable equality of runtime values. -/
def decEqJS : (a b : JSValue) → Decidable (a = b)
  | JSValue.str x, JSValue.str y =>
    if h : x = y then isTrue (by rw [h]) else isFalse (by simp [h])
  | JSValue.num x, JSValue.num y =>
    if h : x = y then isTrue (by rw [h]) else isFalse (by simp [h])
  | JSValue.bool x, JSValue.bool y =>
    if h : x = y then isTrue (by rw [h]) else isFalse (by simp [h])
  | JSValue.null, JSValue.null => isTrue rfl
  | JSValue.obj x, JSValue.obj y =>
    match decEqJSFields x y with
    | isTrue h => isTrue (by rw [h])
    | isFalse h => isFalse (by simp [h])
  | JSValue.arr x, JSValue.arr y =>
    match decEqJSList x y with
    | isTrue h => isTrue (by rw [h])
    | isFalse h => isFalse (by simp [h])
  | JSValue.str _, JSValue.num _ => isFalse (fun h => JSValue.noConfusion h)
  | JSValue.str _, JSValue.bool _ => isFalse (fun h => JSValue.noConfusion h)
  | JSValue.str _, JSValue.obj _ => isFalse (fun h => JSValue.noConfusion h)
  | JSValue.str _, JSValue.arr _ => isFalse (fun h => JSValue.noConfusion h)
  | JSValue.str _, JSValue.null => isFalse (fun h => JSValue.noConfusion h)
  | JSValue.num _, JSValue.str _ => isFalse (fun h => JSValue.noConfusion h)
  | JSValue.num _, JSValue.bool _ => isFalse (fun h => JSValue.noConfusion h)
  | JSValue.num _, JSValue.obj _ => isFalse (fun h => JSValue.noConfusion h)
  | JSValue.num _, JSValue.arr _ => isFalse (fun h => JSValue.noConfusion h)
  | JSValue.num _, JSValue.null => isFalse (fun h => JSValue.noConfusion h)
  | JSValue.bool _, JSValue.str _ => isFalse (fun h => JSValue.noConfusion h)
  | JSValue.bool _, JSValue.num _ => isFalse (fun h => JSValue.noConfusion h)
  | JSValue.bool _, JSValue.obj _ => isFalse (fun h => JSValue.noConfusion h)
  | JSValue.bool _, JSValue.arr _ => isFalse (fun h => JSValue.noConfusion h)
  | JSValue.bool _, JSValue.null => isFalse (fun h => JSValue.noConfusion h)
  | JSValue.obj _, JSValue.str _ => isFalse (fun h => JSValue.noConfusion h)
  | JSValue.obj _, JSValue.num _ => isFalse (fun h => JSValue.noConfusion h)
  | JSValue.obj _, JSValue.bool _ => isFalse (fun h => JSValue.noConfusion h)
  | JSValue.obj _, JSValue.arr _ => isFalse (fun h => JSValue.noConfusion h)
  | JSValue.obj _, JSValue.null => isFalse (fun h => JSValue.noConfusion h)
  | JSValue.arr _, JSValue.str _ => isFalse (fun h => JSValue.noConfusion h)
  | JSValue.arr _, JSValue.num _ => isFalse (fun h => JSValue.noConfusion h)
  | JSValue.arr _, JSValue.bool _ => isFalse (fun h => JSValue.noConfusion h)
  | JSValue.arr _, JSValue.obj _ => isFalse (fun h => JSValue.noConfusion h)
  | JSValue.arr _, JSValue.null => isFalse (fun h => JSValue.noConfusion h)
  | JSValue.null, JSValue.str _ => isFalse (fun h => JSValue.noConfusion h)
  | JSValue.null, JSValue.num _ => isFalse (fun h => JSValue.noConfusion h)
  | JSValue.null, JSValue.bool _ => isFalse (fun h => JSValue.noConfusion h)
  | JSValue.null, JSValue.obj _ => isFalse (fun h => JSValue.noConfusion h)
  | JSValue.null, JSValue.arr _ => isFalse (fun h => JSValue.noConfusion h)

/-- Decidable equality of value lists. -/
def decEqJSList : (a b : List JSValue) → Decidable (a = b)
  | [], [] => isTrue rfl
  | [], _ :: _ => isFalse (fun h => List.noConfusion h)
  | _ :: _, [] => isFalse (fun h => List.noConfusion h)
  | x :: xs, y :: ys =>
    match decEqJS x y with
    | isTrue h1 =>
      match decEqJSList xs ys with
      | isTrue h2 => isTrue (by rw [h1, h2])
      | isFalse h2 => isFalse (by simp [h2])
    | isFalse h1 => isFalse (by simp [h1])

/-- Decidable equality of field lists. -/
def decEqJSFields : (a b : List (String × JSValue)) → Decidable (a = b)
  | [], [] => isTrue rfl
  | [], _ :: _ => isFalse (fun h => List.noConfusion h)
  | _ :: _, [] => isFalse (fun h => List.noConfusion h)
  | (k1, v1) :: xs, (k2, v2) :: ys =>
    if hk : k1 = k2 then
      match decEqJS v1 v2 with
      | isTrue h1 =>
        match decEqJSFields xs ys with
        | isTrue h2 => isTrue (by rw [hk, h1, h2])
        | isFalse h2 => isFalse (by simp [h2])
      | isFalse h1 => isFalse (by simp [h1])
    else isFalse (by simp [hk])

end

instance : DecidableEq JSValue := decEqJS

/-- Declared parameter slot of a skill. -/
structure ParameterSchema where
  name : String
  type : ParameterType
  description : String
  required : Bool
  default : Option JSValue := none
  enum : Option (List JSValue) := none
deriving DecidableEq

/-- Open-ended metadata record of a skill. -/
structure SkillMetadata where
  author : Option String := none
  version : Option String := none
  tags : Option (List String) := none
  requirements : Option (List String) := none
  sourceOrg : Option String := none
  sourceRepo : Option String := none
deriving DecidableEq

/-- Origin kind of a skill: the source string `repository` or `local`. -/
inductive SourceKind
  | repository
  | localDir
deriving DecidableEq

/-- Type of a registered source descriptor: the string `git` or `local`. -/
inductive SrcType
  | git
  | localDir
deriving DecidableEq

/-- Resolved skill record. -/
structure Skill where
  id : String
  name : String
  description : String
  source : SourceKind
  sourcePath : String
  content : String
  parameters : Option (List ParameterSchema)
  metadata : SkillMetadata
  lastUpdated : Int
deriving DecidableEq

/-- Registered source descriptor with its priority. -/
structure RepositorySource where
  type : SrcType
  url : Option String := none
  branch : String := "main"
  path : Option String := none
  priority : Int := 0
deriving DecidableEq

/-- In-memory state of the skill registry: the insertion-ordered skill map,
the priority-ordered source descriptors, the cache path and the last-sync
timestamp. -/
structure SkillRegistry where
  skills : List (String × Skill)
  sources : List RepositorySource
  cachePath : String
  lastSync : Option Int
deriving DecidableEq

/-- Insertion-ordered map update, the behaviour of a JavaScript `Map.set`:
an existing key keeps its position, a new key is appended. -/
def setKV : List (String × Skill) → String → Skill → List (String × Skill)
  | [], k, v => [(k, v)]
  | (k1, v1) :: rest, k, v =>
    if k1 = k then (k1, v) :: rest else (k1, v1) :: setKV rest k v

/-- Map lookup, the behaviour of `Map.get`. -/
def getKV (m : List (String × Skill)) (k : String) : Option Skill :=
  (m.find? (fun p => p.1 == k)).map (fun p => p.2)

/-- Source-kind match used by `registerSkill` when it resolves a skill
against a registered source descriptor: a repository skill matches a git
source, any other skill matches a local source. -/
def matchesKind (k : SourceKind) (s : RepositorySource) : Bool :=
  match k with
  | SourceKind.repository => s.type == SrcType.git
  | SourceKind.localDir => s.type == SrcType.localDir

/-- Priority of the first registered source matching a source kind,
defaulting to 0 when no source matches. -/
def resolvedPriority (r : SkillRegistry) (k : SourceKind) : Int :=
  ((r.sources.find? (matchesKind k)).map (fun s => s.priority)).getD 0

/-- Register a skill: when a skill with the same id already exists and the
incoming skill's resolved priority is strictly lower than the existing
skill's resolved priority the incoming skill is discarded, otherwise the
incoming skill is stored. -/
def registerSkill (r : SkillRegistry) (skill : Skill) : SkillRegistry :=
  match getKV r.skills skill.id with
  | some existing =>
    if resolvedPriority r skill.source < resolvedPriority r existing.source then r
    else { r with skills := setKV r.skills skill.id skill }
  | none => { r with skills := setKV r.skills skill.id skill }

/-- Stable insertion into a descending-priority list: the inserted element
goes after every element of greater or equal priority. -/
def insDesc : List RepositorySource → RepositorySource → List RepositorySource
  | [], x => [x]
  | y :: ys, x => if x.priority > y.priority then x :: y :: ys else y :: insDesc ys x

/-- Stable sort by descending priority, the behaviour of the JavaScript
stable `sort` with the comparator on priorities. -/
def sortByPriority (l : List RepositorySource) : List RepositorySource :=
  l.foldl insDesc []

/-- Append a source and re-sort all sources by descending priority. -/
def addSource (r : SkillRegistry) (s : RepositorySource) : SkillRegistry :=
  { r with sources := sortByPriority (r.sources ++ [s]) }

/-- Look a skill up by id. -/
def getSkill (r : SkillRegistry) (skillId : String) : Option Skill :=
  getKV r.skills skillId

/-- All registered skills in insertion order. -/
def listSkills (r : SkillRegistry) : List Skill :=
  r.skills.map (fun p => p.2)

/-- Remove every skill. -/
def clearSkills (r : SkillRegistry) : SkillRegistry :=
  { r with skills := [] }

/-- Record the last synchronization timestamp. -/
def setLastSync (r : SkillRegistry) (t : Int) : SkillRegistry :=
  { r with lastSync := some t }

/-- Result of parameter validation. -/
structure ValidationResult where
  valid : Bool
  errors : Option (List String)
deriving DecidableEq

/-- Type check performed by the per-type validator built in
`validateParameterValue`: each declared type accepts exactly the values of
the corresponding runtime shape. -/
def typeAccepts : ParameterType → JSValue → Bool
  | ParameterType.string, JSValue.str _ => true
  | ParameterType.number, JSValue.num _ => true
  | ParameterType.boolean, JSValue.bool _ => true
  | ParameterType.object, JSValue.obj _ => true
  | ParameterType.array, JSValue.arr _ => true
  | _, _ => false

/-- JavaScript string conversion of a runtime value, used when values are
interpolated into messages and templates. -/
def jsToString : JSValue → String
  | JSValue.str s => s
  | JSValue.num n => toString n
  | JSValue.bool true => "true"
  | JSValue.bool false => "false"
  | JSValue.null => "null"
  | JSValue.obj _ => "[object Object]"
  | JSValue.arr l => String.intercalate "," (l.attach.map (fun x => jsToString x.1))
decreasing_by
  have := List.sizeOf_lt_of_mem x.2
  simp only [JSValue.arr.sizeOf_spec]
  omega

/-- Validate one value against one declared parameter: a type check,
then an enum membership refinement for string parameters with a declared
enum.  Returns the validity flag together with the error message. -/
def validateParameterValue (p : ParameterSchema) (v : JSValue) : Bool × Option String :=
  if typeAccepts p.type v then
    match p.enum, p.type with
    | some es, ParameterType.string =>
      if es.contains v then (true, none)
      else (false, some ("Value must be one of: " ++ String.intercalate ", " (es.map jsToString)))
    | _, _ => (true, none)
  else (false, some "Invalid type")

/-- Key membership in a value map, the JavaScript `in` test. -/
def hasKey (params : List (String × JSValue)) (n : String) : Bool :=
  params.any (fun q => q.1 == n)

/-- Value lookup in a value map; only used under a `hasKey` guard. -/
def getVal (params : List (String × JSValue)) (n : String) : JSValue :=
  ((params.find? (fun q => q.1 == n)).map (fun q => q.2)).getD JSValue.null

/-- Errors contributed by one declared parameter in the validation loop:
a missing-required report, or an invalid-value report for a present value,
or nothing. -/
def paramErrs (params : List (String × JSValue)) (p : ParameterSchema) : List String :=
  if p.required && !(hasKey params p.name) then
    ["Missing required parameter: " ++ p.name]
  else if hasKey params p.name then
    match validateParameterValue p (getVal params p.name) with
    | (true, _) => []
    | (false, e) => ["Invalid parameter " ++ p.name ++ ": " ++ e.getD "Validation failed"]
  else []

/-- Validate a value map against a skill: a not-found error when the id is
unknown, otherwise the per-parameter reports followed by one unknown-key
report for every key not declared on the skill. -/
def validateParameters (r : SkillRegistry) (skillId : String)
    (params : List (String × JSValue)) : ValidationResult :=
  match getSkill r skillId with
  | none => { valid := false, errors := some ["Skill not found: " ++ skillId] }
  | some skill =>
    let ps := skill.parameters.getD []
    let errs := (ps.map (paramErrs params)).flatten ++
      ((params.map (fun q => q.1)).filter
        (fun k => !((ps.map (fun p => p.name)).contains k))).map
        (fun k => "Unknown parameter: " ++ k)
    { valid := errs.isEmpty, errors := if errs.isEmpty then none else some errs }

/-- Serializable snapshot of the registry. -/
structure RegistrySnapshot where
  skills : List Skill
  sources : List RepositorySource
  cachePath : String
  lastSync : Option Int
deriving DecidableEq

/-- Serialize the registry: the skill records in insertion order, the
source list, the cache path and the last-sync timestamp. -/
def toJSON (r : SkillRegistry) : RegistrySnapshot :=
  { skills := r.skills.map (fun p => p.2), sources := r.sources,
    cachePath := r.cachePath, lastSync := r.lastSync }

/-- Reconstruct a registry from a snapshot: replay `registerSkill` for
every skill, then add every source, then restore the last-sync timestamp
when present. -/
def fromJSON (d : RegistrySnapshot) : SkillRegistry :=
  let r0 : SkillRegistry :=
    { skills := [], sources := [], cachePath := d.cachePath, lastSync := none }
  let r1 := d.skills.foldl registerSkill r0
  let r2 := d.sources.foldl addSource r1
  match d.lastSync with
  | some t => setLastSync r2 t
  | none => r2

/-- Concrete skill record used by the witnesses. -/
def demoSkill (sid nm : String) (k : SourceKind) : Skill :=
  { id := sid, name := nm, description := "d", source := k, sourcePath := "p",
    content := "c", parameters := some [], metadata := {}, lastUpdated := 0 }

/-- Concrete registry with a git source of priority 1 and a local source
of priority 2, used by the witnesses. -/
def demoRegistry : SkillRegistry :=
  { skills := [],
    sources := [{ type := SrcType.localDir, path := some "/l", priority := 2 },
                { type := SrcType.git, url := some "u", priority := 1 }],
    cachePath := "/cache", lastSync := none }

/-- Descending-priority ordering invariant of the source list. -/
def sortedDesc (l : List RepositorySource) : Prop :=
  l.Pairwise (fun a b => b.priority ≤ a.priority)

/-- Well-formedness invariant of a registry state reachable through the
registry operations: every stored key equals its record's id, keys are
distinct, and the source list is ordered by descending priority. -/
def registryWF (r : SkillRegistry) : Prop :=
  (∀ p ∈ r.skills, p.1 = p.2.id) ∧ (r.skills.map Prod.fst).Nodup ∧ sortedDesc r.sources

/-- Concrete well-formed registry used by the round-trip witness. -/
def demoRegistry2 : SkillRegistry :=
  { skills := [("a", demoSkill "a" "x" SourceKind.repository),
               ("b", demoSkill "b" "y" SourceKind.localDir)],
    sources := demoRegistry.sources, cachePath := "/c", lastSync := some 5 }

/-- Full error list produced by `validateParameters` for a known skill:
the per-parameter reports followed by the unknown-key reports. -/
def allErrs (skill : Skill) (params : List (String × JSValue)) : List String :=
  (((skill.parameters.getD []).map (paramErrs params)).flatten) ++
    ((params.map (fun q => q.1)).filter
      (fun k => !(((skill.parameters.getD []).map (fun p => p.name)).contains k))).map
      (fun k => "Unknown parameter: " ++ k)

/-- Registry with one skill `demo` carrying required string parameters
`a` and `b`, used by the exhaustiveness example. -/
def demoSkillAB : Skill :=
  { id := "demo", name := "Demo", description := "d",
    source := SourceKind.repository, sourcePath := "p", content := "c",
    parameters := some
      [{ name := "a", type := ParameterType.string, description := "pa", required := true },
       { name := "b", type := ParameterType.string, description := "pb", required := true }],
    metadata := {}, lastUpdated := 0 }

/-- Registry holding only `demoSkillAB`, used by the exhaustiveness
example. -/
def demoRegistry3 : SkillRegistry :=
  { skills := [("demo", demoSkillAB)],
    sources := [], cachePath := "", lastSync := none }

/-- Result record returned by the sync controller. -/
structure GitSyncResult where
  success : Bool
  updated : Bool
  message : String
  skillsChanged : Option Bool := none
deriving DecidableEq

/-- Abstract state of the local working copy: whether a repository exists,
the head revision of the working copy, and the locally recorded revision
of the remote tracking reference. -/
structure GitState where
  hasGit : Bool
  localHead : String
  originHead : String
deriving DecidableEq

/-- Operations performed against the working copy during one call:
network fetch attempts, hard resets, clone attempts. -/
structure SyncEff where
  fetches : Nat := 0
  resets : Nat := 0
  clones : Nat := 0
deriving DecidableEq

/-- Outcome of one sync-controller call. -/
structure SyncOut where
  result : GitSyncResult
  state : GitState
  eff : SyncEff
deriving DecidableEq

/-- Sum of the effects of two successive calls. -/
def addEff (a b : SyncEff) : SyncEff :=
  { fetches := a.fetches + b.fetches, resets := a.resets + b.resets, clones := a.clones + b.clones }

/-- Result reported when the heads are equal after a fetch. -/
def upToDateResult : GitSyncResult :=
  { success := true, updated := false, message := "Repository is up to date", skillsChanged := some false }

/-- Result reported after a successful hard reset. -/
def updatedResult : GitSyncResult :=
  { success := true, updated := true, message := "Repository updated successfully", skillsChanged := some true }

/-- Result reported after a successful clone. -/
def clonedResult : GitSyncResult :=
  { success := true, updated := true, message := "Repository cloned successfully", skillsChanged := some true }

/-- Sync of an existing working copy: fetch the branch, compare the local
head revision with the remote head revision; when they are equal report
no update and perform no reset; when they differ perform a hard reset of
the working copy to the remote head.  A failing fetch is caught and
reported as an unsuccessful result, leaving the working copy unchanged. -/
def syncGitPresent (st : GitState) (remoteHead : String) (netOk : Bool) : SyncOut :=
  if netOk then
    if st.localHead = remoteHead then
      { result := upToDateResult, state := { st with originHead := remoteHead }, eff := { fetches := 1 } }
    else
      { result := updatedResult,
        state := { st with originHead := remoteHead, localHead := remoteHead },
        eff := { fetches := 1, resets := 1 } }
  else
    { result := { success := false, updated := false, message := "Sync failed" },
      state := st, eff := { fetches := 1 } }

/-- Shallow single-branch clone of an absent working copy. -/
def cloneRepo (st : GitState) (remoteHead : String) (netOk : Bool) : SyncOut :=
  if netOk then
    { result := clonedResult,
      state := { hasGit := true, localHead := remoteHead, originHead := remoteHead },
      eff := { clones := 1 } }
  else
    { result := { success := false, updated := false, message := "Failed to initialize the repository" },
      state := st, eff := { clones := 1 } }

/-- The sync entry point: an absent working copy delegates to the
initialization entry point, which clones it; an existing working copy is
fetched and compared. -/
def sync (st : GitState) (remoteHead : String) (netOk : Bool) : SyncOut :=
  if st.hasGit then syncGitPresent st remoteHead netOk
  else cloneRepo st remoteHead netOk

/-- The initialization entry point of the controller: an existing working
copy delegates to `sync`; an absent one is cloned.  Its net behaviour is
identical to `sync`. -/
def initGitRepo (st : GitState) (remoteHead : String) (netOk : Bool) : SyncOut :=
  if st.hasGit then syncGitPresent st remoteHead netOk
  else cloneRepo st remoteHead netOk

/-- Combined system state threaded through the auto-sync loop: the working
copy, the refresh-in-progress flag of the entry point, and the registry. -/
structure SysState where
  git : GitState
  isSyncing : Bool
  registry : SkillRegistry
deriving DecidableEq

/-- Auto-sync callback installed by the entry point: when the in-progress
flag is set it returns at once, performing nothing; otherwise it runs a
second `sync`, reloads the registry (clear, then re-register every parsed
skill) and stores the last-sync timestamp when the sync reports changed
skills, and leaves the flag cleared.  Cache-file writes are not modelled. -/
def refreshCallback (st : SysState) (remoteHead : String) (netOk : Bool)
    (parsed : List Skill) (now : Int) : SysState × SyncEff :=
  if st.isSyncing then (st, {})
  else if (sync st.git remoteHead netOk).result.success
      && (sync st.git remoteHead netOk).result.skillsChanged.getD false then
    ({ git := (sync st.git remoteHead netOk).state, isSyncing := false,
       registry := setLastSync (parsed.foldl registerSkill (clearSkills st.registry)) now },
     (sync st.git remoteHead netOk).eff)
  else
    ({ st with git := (sync st.git remoteHead netOk).state, isSyncing := false },
     (sync st.git remoteHead netOk).eff)

/-- One scheduled tick of the auto-sync loop started by `startAutoSync`:
the interval body unconditionally runs `sync`, and only when that sync
reports success with an update does it invoke the refresh callback. -/
def autoSyncTick (st : SysState) (remoteHead : String) (netOk : Bool)
    (parsed : List Skill) (now : Int) : SysState × SyncEff :=
  if (sync st.git remoteHead netOk).result.success
      && (sync st.git remoteHead netOk).result.updated then
    ((refreshCallback { st with git := (sync st.git remoteHead netOk).state }
        remoteHead netOk parsed now).1,
     addEff (sync st.git remoteHead netOk).eff
       (refreshCallback { st with git := (sync st.git remoteHead netOk).state }
         remoteHead netOk parsed now).2)
  else
    ({ st with git := (sync st.git remoteHead netOk).state },
     (sync st.git remoteHead netOk).eff)

/-- System state whose in-progress flag is set while an upstream update is
pending, used as the concrete input refuting the claim. -/
def busySysState : SysState :=
  { git := { hasGit := true, localHead := "a", originHead := "a" }, isSyncing := true,
    registry := { skills := [], sources := [], cachePath := "", lastSync := none } }

/-- Match a literal pattern at the head of a string, returning the rest. -/
def stripP : List Char → List Char → Option (List Char)
  | [], s => some s
  | _ :: _, [] => none
  | p :: ps, c :: cs => if p = c then stripP ps cs else none

/-- Match one placeholder at the head of a string: the opening delimiter,
greedy whitespace, the key literally, greedy whitespace, the closing
delimiter.  Returns the rest after the placeholder.  This is the leftmost
step of the global regular expression built for one key. -/
def matchPH (opn cls key s : List Char) : Option (List Char) :=
  (stripP opn s).bind fun s1 =>
    (stripP key (s1.dropWhile isWSChar)).bind fun s3 =>
      stripP cls (s3.dropWhile isWSChar)

/-- Generic left-to-right scan-and-replace: at each position the matcher
either yields replacement text plus the rest after the match, or the
current character is copied.  The fuel argument makes the recursion
structural; it is instantiated with the string length. -/
def scanSub (f : List Char → Option (List Char × List Char)) : Nat → List Char → List Char
  | _, [] => []
  | 0, s => s
  | Nat.succ n, c :: cs =>
    match f (c :: cs) with
    | some (v, rest) => v ++ scanSub f n rest
    | none => c :: scanSub f n cs

/-- Scanner at its canonical fuel. -/
def scanSubC (f : List Char → Option (List Char × List Char)) (s : List Char) : List Char :=
  scanSub f s.length s

/-- Opening delimiter of the double-brace placeholder form. -/
def curlyOpen : List Char := ['{', '{']

/-- Closing delimiter of the double-brace placeholder form. -/
def curlyClose : List Char := ['}', '}']

/-- Opening delimiter of the dollar-brace placeholder form. -/
def dollarOpen : List Char := ['$', '{']

/-- Closing delimiter of the dollar-brace placeholder form. -/
def dollarClose : List Char := ['}']

/-- Global replacement of every placeholder with the given delimiters and
key by the value: the JavaScript `replace` with a global flag. -/
def replacePH (opn cls key v : List Char) (s : List Char) : List Char :=
  scanSubC (fun t => (matchPH opn cls key t).map (fun rest => (v, rest))) s

/-- Substitution step for one map entry, as performed by the loop body of
`substituteParameters`: first every double-brace placeholder of the key is
replaced, then every dollar-brace placeholder in the result. -/
def substEntry (s : List Char) (kv : List Char × List Char) : List Char :=
  replacePH dollarOpen dollarClose kv.1 kv.2
    (replacePH curlyOpen curlyClose kv.1 kv.2 s)

/-- Parameter substitution of the skill executor: the map entries are
applied one after the other, each over the previous result. -/
def substituteParameters (content : List Char) (params : List (List Char × List Char)) :
    List Char :=
  params.foldl substEntry content

/-- Try both placeholder forms of one map entry at the head of a string. -/
def tryEntry (kv : List Char × List Char) (s : List Char) : Option (List Char × List Char) :=
  match matchPH curlyOpen curlyClose kv.1 s with
  | some rest => some (kv.2, rest)
  | none =>
    match matchPH dollarOpen dollarClose kv.1 s with
    | some rest => some (kv.2, rest)
    | none => none

/-- First map entry whose placeholder matches at the head of a string. -/
def findMatch (m : List (List Char × List Char)) (s : List Char) :
    Option (List Char × List Char) :=
  match m with
  | [] => none
  | kv :: rest =>
    match tryEntry kv s with
    | some p => some p
    | none => findMatch rest s

/-- Substitution as the specification sentence reads: one simultaneous
left-to-right pass over the template, replacing each placeholder whose
name is a key of the map by that key's value and leaving all other text,
including placeholders of unknown names, verbatim. -/
def specSubstitute (content : List Char) (params : List (List Char × List Char)) :
    List Char :=
  scanSubC (findMatch params) content

/-- Result record of a skill invocation. -/
structure InvocationResult where
  success : Bool
  content : Option String
  errorCode : Option String
  errorMessage : Option String
  errorDetails : Option (List String)
  executionTime : Nat
deriving DecidableEq

/-- Successful invocation result. -/
def createSuccessResult (content : String) (t : Nat) : InvocationResult :=
  { success := true, content := some content, errorCode := none, errorMessage := none,
    errorDetails := none, executionTime := t }

/-- Failed invocation result. -/
def createErrorResult (code msg : String) (t : Nat) (details : Option (List String)) :
    InvocationResult :=
  { success := false, content := none, errorCode := some code, errorMessage := some msg,
    errorDetails := details, executionTime := t }

/-- Skill invocation of the executor: look the skill up, validate the
value map, then substitute the values into the content template.  Elapsed
time is not modelled and reported as zero. -/
def invokeSkill (r : SkillRegistry) (skillId : String)
    (params : List (String × JSValue)) : InvocationResult :=
  match getSkill r skillId with
  | none => createErrorResult "SkillNotFound" ("Skill not found: " ++ skillId) 0 none
  | some skill =>
    if (validateParameters r skillId params).valid = false then
      createErrorResult "InvalidParams"
        (String.intercalate ", " ((validateParameters r skillId params).errors.getD []))
        0 (validateParameters r skillId params).errors
    else
      createSuccessResult
        (String.mk (substituteParameters skill.content.data
          (params.map (fun q => (q.1.data, (jsToString q.2).data))))) 0

/-- Characters free of the placeholder-opening delimiters. -/
def litFree (s : List Char) : Bool :=
  s.all (fun c => !(c = '{') && !(c = '$'))

/-- Placeholder form: double-brace or dollar-brace. -/
inductive PForm
  | curly
  | dollar
deriving DecidableEq

/-- One well-formed placeholder occurrence: its form, the whitespace
around the name, and the name. -/
structure PHSeg where
  form : PForm
  ws1 : List Char
  key : List Char
  ws2 : List Char
deriving DecidableEq

/-- Template segment: literal text or a placeholder. -/
inductive Seg
  | lit (s : List Char)
  | ph (p : PHSeg)
deriving DecidableEq

/-- Opening delimiter of a placeholder form. -/
def phOpenOf : PForm → List Char
  | PForm.curly => ['{', '{']
  | PForm.dollar => ['$', '{']

/-- Closing delimiter of a placeholder form. -/
def phCloseOf : PForm → List Char
  | PForm.curly => ['}', '}']
  | PForm.dollar => ['}']

/-- Character rendering of a placeholder. -/
def renderPH (p : PHSeg) : List Char :=
  phOpenOf p.form ++ p.ws1 ++ p.key ++ p.ws2 ++ phCloseOf p.form

/-- Character rendering of a segment. -/
def renderSeg : Seg → List Char
  | Seg.lit s => s
  | Seg.ph p => renderPH p

/-- Character rendering of a template. -/
def renderT (t : List Seg) : List Char :=
  (t.map renderSeg).flatten

/-- Non-empty identifier made only of word characters. -/
def wordList (k : List Char) : Bool :=
  !k.isEmpty && k.all isWordChar

/-- Whitespace-only run. -/
def wsList (w : List Char) : Bool :=
  w.all isWSChar

/-- Well-formedness of a segment: literal text free of opening delimiters,
placeholders with whitespace runs and an identifier name. -/
def segWF : Seg → Bool
  | Seg.lit s => litFree s
  | Seg.ph p => wsList p.ws1 && wordList p.key && wsList p.ws2

/-- Well-formed template. -/
def tmplWF (t : List Seg) : Bool :=
  t.all segWF

/-- Well-formed value map: identifier keys and delimiter-free values. -/
def mapWF (m : List (List Char × List Char)) : Bool :=
  m.all (fun kv => wordList kv.1 && litFree kv.2)

/-- First value bound to a key in the map. -/
def lookupKV (m : List (List Char × List Char)) (k : List Char) : Option (List Char) :=
  (m.find? (fun kv => kv.1 == k)).map (fun kv => kv.2)

/-- Simultaneous substitution on one segment: a placeholder whose name is
a key becomes its value as literal text, all else is unchanged. -/
def substSeg (m : List (List Char × List Char)) : Seg → Seg
  | Seg.lit s => Seg.lit s
  | Seg.ph p =>
    match lookupKV m p.key with
    | some v => Seg.lit v
    | none => Seg.ph p

/-- Single-form single-key substitution on one segment. -/
def substSegForm (f : PForm) (k v : List Char) : Seg → Seg
  | Seg.lit s => Seg.lit s
  | Seg.ph p => if f = p.form ∧ k = p.key then Seg.lit v else Seg.ph p

/-- Single-key substitution on one segment, both forms. -/
def substSegKey (k v : List Char) : Seg → Seg
  | Seg.lit s => Seg.lit s
  | Seg.ph p => if k = p.key then Seg.lit v else Seg.ph p

/-- Matcher built for one key and one placeholder form by the per-entry
replacement. -/
def keyMatcher (opn cls key v : List Char) : List Char → Option (List Char × List Char) :=
  fun t => (matchPH opn cls key t).map (fun rest => (v, rest))

/-- Demonstration template made of literal text and two placeholders, one
per form, used to instantiate the substitution theorem. -/
def demoTmpl : List Seg :=
  [Seg.lit ['H', 'i', ' '],
   Seg.ph { form := PForm.curly, ws1 := [' '], key := ['a'], ws2 := [' '] },
   Seg.lit ['-'],
   Seg.ph { form := PForm.dollar, ws1 := [], key := ['q'], ws2 := [] }]

/-- Demonstration value map binding only one of the two placeholder names. -/
def demoMap : List (List Char × List Char) := [(['a'], ['o', 'k'])]

/-- Lower-case image of a character list, the ASCII effect of the
JavaScript toLowerCase calls of the parser. -/
def lowerL (s : List Char) : List Char := s.map lowerChar

/-- Whether the second character list starts with the first. -/
def startsWithL : List Char → List Char → Bool
  | [], _ => true
  | _ :: _, [] => false
  | a :: pt, b :: st => a == b && startsWithL pt st

/-- Whether a character list contains the given sublist contiguously, the
JavaScript includes test with the needle as first argument. -/
def includesL (sub : List Char) : List Char → Bool
  | [] => startsWithL sub []
  | c :: t => startsWithL sub (c :: t) || includesL sub t

/-- Splitting worker keeping an accumulator of the current piece. -/
def splitAux (sep : Char) : List Char → List Char → List (List Char)
  | [], acc => [acc.reverse]
  | c :: t, acc => if c = sep then acc.reverse :: splitAux sep t [] else splitAux sep t (c :: acc)

/-- Split on a separator character, keeping empty pieces, as the
JavaScript split does. -/
def splitOnChar (sep : Char) (s : List Char) : List (List Char) := splitAux sep s []

/-- Both-ends whitespace trim, as the JavaScript trim does. -/
def trimL (s : List Char) : List Char :=
  ((s.dropWhile isWSChar).reverse.dropWhile isWSChar).reverse

/-- Explicit required or optional token of a type hint: the hint is split
on commas, each part trimmed and lower-cased, and the second part decides;
any other second part, a single part, or a missing hint give no token. -/
def explicitRequiredOf : Option (List Char) → Option Bool
  | none => none
  | some raw =>
    match (splitOnChar ',' raw).map (fun q => lowerL (trimL q)) with
    | _ :: p2 :: _ =>
      if p2 = "required".data then some true
      else if p2 = "optional".data then some false
      else none
    | _ => none

/-- Parameter type named by the first comma part of a type hint, with
string as the fallback for unknown names. -/
def typeOfHint (raw : List Char) : ParameterType :=
  match (splitOnChar ',' raw).map (fun q => lowerL (trimL q)) with
  | t0 :: _ =>
    if t0 = "string".data then ParameterType.string
    else if t0 = "number".data then ParameterType.number
    else if t0 = "boolean".data then ParameterType.boolean
    else if t0 = "object".data then ParameterType.object
    else if t0 = "array".data then ParameterType.array
    else ParameterType.string
  | [] => ParameterType.string

/-- Parameter type inferred from description keywords when no type hint
is present. -/
def typeOfDesc (desc : List Char) : ParameterType :=
  if includesL "true/false".data (lowerL desc) || includesL "boolean".data (lowerL desc) then
    ParameterType.boolean
  else if includesL "array".data (lowerL desc) || includesL "list".data (lowerL desc) then
    ParameterType.array
  else if includesL "object".data (lowerL desc) || includesL "map".data (lowerL desc) then
    ParameterType.object
  else ParameterType.string

/-- Required flag of one parsed bullet: an explicit token wins; with a
type hint but no token, only the phrases (required) and is required in
the description make the parameter required; with no hint at all, the
words optional or default make it optional, else the word required makes
it required, else it is optional. -/
def isRequiredOf (th : Option (List Char)) (desc : List Char) : Bool :=
  match explicitRequiredOf th with
  | some b => b
  | none =>
    match th with
    | some _ =>
      includesL "(required)".data (lowerL desc) || includesL "is required".data (lowerL desc)
    | none =>
      if includesL "optional".data (lowerL desc) || includesL "default".data (lowerL desc) then
        false
      else if includesL "required".data (lowerL desc) then true
      else false

/-- Requiredness inference exactly as the specification sentence words it
for bullets without an explicit token: the word required makes the
parameter required, optional or default make it optional and win when
both appear, and it defaults to optional. -/
def claimedRequired (desc : List Char) : Bool :=
  if includesL "optional".data (lowerL desc) || includesL "default".data (lowerL desc) then
    false
  else if includesL "required".data (lowerL desc) then true
  else false

/-- Tail of a bullet line after the name and optional hint: optional
whitespace, a colon, optional whitespace and a non-empty description; a
whitespace-only tail leaves its final character as the description, as
the greedy-then-backtracking dot-plus of the line pattern does. -/
def bulletTail (nm : List Char) (th : Option (List Char)) (r : List Char) :
    Option (List Char × Option (List Char) × List Char) :=
  match r.dropWhile isWSChar with
  | ':' :: r8 =>
    match r8.dropWhile isWSChar with
    | [] =>
      match r8.reverse with
      | [] => none
      | lastc :: _ => some (nm, th, [lastc])
    | d :: rest2 => some (nm, th, d :: rest2)
  | _ => none

/-- One bullet line of the parameters section, as matched by the line
pattern of the parser: a dash or star, whitespace, a word name, an
optional parenthesised non-empty type hint, a colon and a description. -/
def matchBulletLine (line : List Char) : Option (List Char × Option (List Char) × List Char) :=
  match line with
  | [] => none
  | c :: r1 =>
    if c = '-' || c = '*' then
      if (r1.takeWhile isWSChar).isEmpty then none
      else
        let r2 := r1.dropWhile isWSChar
        let nm := r2.takeWhile isWordChar
        if nm.isEmpty then none
        else
          let r3 := r2.dropWhile isWordChar
          match r3.dropWhile isWSChar with
          | '(' :: r5 =>
            let hint := r5.takeWhile (fun d => !(d = ')'))
            match r5.dropWhile (fun d => !(d = ')')), hint.isEmpty with
            | ')' :: r7, false => bulletTail nm (some hint) r7
            | _, _ => bulletTail nm none r3
          | _ => bulletTail nm none r3
    else none

/-- Parameter record built from one matched bullet by the extraction loop
body. -/
def paramOfMatch (nm : List Char) (th : Option (List Char)) (desc : List Char) :
    ParameterSchema :=
  { name := String.mk nm,
    type := match th with
      | some raw => typeOfHint raw
      | none => typeOfDesc desc,
    description := String.mk (trimL desc),
    required := isRequiredOf th desc }

/-- Case-insensitive literal prefix strip; the pattern is given in lower
case. -/
def stripCI : List Char → List Char → Option (List Char)
  | [], s => some s
  | _ :: _, [] => none
  | a :: pt, b :: st => if lowerChar b = a then stripCI pt st else none

/-- Capture cut of the section body: everything before its first double
hash, the effect of the lazy capture with a double-hash lookahead. -/
def cutAtHH : List Char → List Char
  | [] => []
  | '#' :: '#' :: _ => []
  | c :: t => c :: cutAtHH t

/-- Attempt of the parameters-heading match at the start of the string:
two hashes, optional whitespace, the word parameter case-insensitively
with an optional final s, then a whitespace run containing at least one
line break, consumed up to its last line break; the capture runs to the
next double hash or the end. -/
def matchSectionAt (s : List Char) : Option (List Char) :=
  match s with
  | '#' :: '#' :: r1 =>
    match stripCI "parameter".data (r1.dropWhile isWSChar) with
    | none => none
    | some r2 =>
      let r3 := match r2 with
        | 's' :: t => t
        | 'S' :: t => t
        | _ => r2
      let w := r3.takeWhile isWSChar
      if w.contains '\n' then
        some (cutAtHH ((w.reverse.takeWhile (fun d => !(d = '\n'))).reverse ++
          r3.dropWhile isWSChar))
      else none
  | _ => none

/-- First position of the document where the parameters-heading pattern
matches, and its captured section body. -/
def findSection : List Char → Option (List Char)
  | [] => none
  | c :: t =>
    match matchSectionAt (c :: t) with
    | some cap => some cap
    | none => findSection t

/-- Parameters extracted from a document: the matching bullet lines of
the first parameters section, in order. -/
def extractParameters (content : List Char) : List ParameterSchema :=
  match findSection content with
  | none => []
  | some sec =>
    (splitOnChar '\n' sec).filterMap
      (fun l => (matchBulletLine l).map (fun q => paramOfMatch q.1 q.2.1 q.2.2))

/-- Demonstration document with one parameters bullet carrying a type
hint and a description containing the word required. -/
def demoDoc : List Char := ("## Parameters\n- x (string): required.\n").data

/-- Parameter record the extractor produces from the demonstration
document. -/
def demoParam : ParameterSchema :=
  { name := "x", type := ParameterType.string, description := "required.",
    required := false }

/-- Intermediate parse result of a skill markdown document. -/
structure ParsedSkill where
  name : List Char
  description : List Char
  content : List Char
  metadata : SkillMetadata
  parameters : List ParameterSchema
deriving DecidableEq

/-- Frontmatter value: a plain string or a parsed string array. -/
inductive FMVal
  | strV (s : List Char)
  | arrV (a : List (List Char))
deriving DecidableEq

/-- Key and raw value of one frontmatter line: a non-empty colon-free key,
the colon, optional whitespace and a non-empty value; a whitespace-only
value tail leaves its final character, as the greedy dot-plus with
backtracking does. -/
def parseFMLine (line : List Char) : Option (List Char × List Char) :=
  match line.dropWhile (fun c => !(c = ':')), (line.takeWhile (fun c => !(c = ':'))).isEmpty with
  | ':' :: r, false =>
    match r.dropWhile isWSChar with
    | [] =>
      match r.reverse with
      | [] => none
      | lastc :: _ => some (line.takeWhile (fun c => !(c = ':')), [lastc])
    | d :: rest2 => some (line.takeWhile (fun c => !(c = ':')), d :: rest2)
  | _, _ => none

/-- One double-quoted string at the head of the input, without escape
sequences; escaped strings are treated as unparseable, sending the caller
to the trimmed-string fallback. -/
def jsonStrItem (s : List Char) : Option (List Char × List Char) :=
  match s with
  | '"' :: r =>
    match r.dropWhile (fun c => !(c = '"') && !(c = '\\')), r.takeWhile (fun c => !(c = '"') && !(c = '\\')) with
    | '"' :: r2, v => some (v, r2)
    | _, _ => none
  | _ => none

/-- Comma-separated double-quoted strings up to the closing bracket. -/
def jsonItems : Nat → List Char → Option (List (List Char))
  | 0, _ => none
  | fuel + 1, s =>
    match jsonStrItem (s.dropWhile isWSChar) with
    | none => none
    | some (v, r2) =>
      match r2.dropWhile isWSChar with
      | ',' :: r3 => (jsonItems fuel r3).map (fun vs => v :: vs)
      | ']' :: r4 => if (r4.dropWhile isWSChar).isEmpty then some [v] else none
      | _ => none

/-- Minimal JSON string-array parse of a frontmatter value; only arrays
of unescaped strings are accepted, everything else falls back to the
trimmed string. -/
def parseJSONStringArray (v : List Char) : Option (List (List Char)) :=
  match v with
  | '[' :: r =>
    match r.dropWhile isWSChar with
    | ']' :: rest => if (rest.dropWhile isWSChar).isEmpty then some [] else none
    | _ => jsonItems (r.length + 1) r
  | _ => none

/-- Frontmatter record: each line parsed to a trimmed key and a value,
array-shaped values parsed as JSON string arrays with a trimmed-string
fallback. -/
def parseFrontmatter (fm : List Char) : List (List Char × FMVal) :=
  (splitOnChar '\n' fm).filterMap (fun line =>
    (parseFMLine line).map (fun q =>
      if startsWithL ['['] q.2 && startsWithL [']'] q.2.reverse then
        match parseJSONStringArray q.2 with
        | some a => (trimL q.1, FMVal.arrV a)
        | none => (trimL q.1, FMVal.strV (trimL q.2))
      else (trimL q.1, FMVal.strV (trimL q.2))))

/-- Value stored under a key of the frontmatter record; later lines
overwrite earlier ones, as assignment to an object does. -/
def fmGet (fm : List (List Char × FMVal)) (k : List Char) : Option FMVal :=
  ((fm.filter (fun q => q.1 == k)).getLast?).map (fun q => q.2)

/-- String value of a frontmatter key, empty when absent or array-shaped. -/
def fmStrD (fm : List (List Char × FMVal)) (k : List Char) : List Char :=
  match fmGet fm k with
  | some (FMVal.strV s) => s
  | _ => []

/-- Optional string value of a frontmatter key. -/
def fmGetStr (fm : List (List Char × FMVal)) (k : List Char) : Option (List Char) :=
  match fmGet fm k with
  | some (FMVal.strV s) => some s
  | _ => none

/-- Optional array value of a frontmatter key, the effect of the
array-shape test on the stored value. -/
def fmGetArr (fm : List (List Char × FMVal)) (k : List Char) : Option (List (List Char)) :=
  match fmGet fm k with
  | some (FMVal.arrV a) => some a
  | _ => none

/-- Consumption of a whitespace run that must contain a line break, up to
its last line break: the effect of a greedy whitespace star followed by a
line break at a position where the rest of the pattern always matches. -/
def afterLastNL (r : List Char) : Option (List Char) :=
  if (r.takeWhile isWSChar).contains '\n' then
    some ((((r.takeWhile isWSChar).reverse.takeWhile (fun d => !(d = '\n'))).reverse) ++
      r.dropWhile isWSChar)
  else none

/-- Scan for the closing frontmatter fence: a line break, three dashes
and a whitespace run containing a line break; the accumulator collects
the frontmatter body. -/
def findFMEnd : List Char → List Char → Option (List Char × List Char)
  | _, [] => none
  | acc, c :: t =>
    if c = '\n' then
      match t with
      | '-' :: '-' :: '-' :: r =>
        match afterLastNL r with
        | some r2 => some (acc.reverse, r2)
        | none => findFMEnd (c :: acc) t
      | _ => findFMEnd (c :: acc) t
    else findFMEnd (c :: acc) t

/-- Candidate starts of the frontmatter body, one per line break of the
whitespace run after the opening fence, latest first: the backtracking
order of the greedy whitespace star before the required line break. -/
def fmCands (R : List Char) : List Char → List Char → List (List Char)
  | _, [] => []
  | tailAcc, d :: wt =>
    if d = '\n' then (tailAcc ++ R) :: fmCands R (d :: tailAcc) wt
    else fmCands R (d :: tailAcc) wt

/-- First candidate start from which a closing fence is found. -/
def firstFM : List (List Char) → Option (List Char × List Char)
  | [] => none
  | c :: cs =>
    match findFMEnd [] c with
    | some p => some p
    | none => firstFM cs

/-- Frontmatter and body split of a document: an opening three-dash fence
at the very start, the frontmatter text, a closing fence, and the rest. -/
def splitFrontmatter (content : List Char) : Option (List Char × List Char) :=
  match content with
  | '-' :: '-' :: '-' :: r =>
    firstFM (fmCands (r.dropWhile isWSChar) [] (r.takeWhile isWSChar).reverse)
  | _ => none

/-- Title text after a line-start hash: at least one whitespace character
and the rest of the line; when the document ends in whitespace, the final
character stands in for the title if it is not a line break. -/
def titleAt (t : List Char) : Option (List Char) :=
  if (t.takeWhile isWSChar).isEmpty then none
  else
    match t.dropWhile isWSChar with
    | d :: r => some ((d :: r).takeWhile (fun c => !(c = '\n')))
    | [] =>
      match (t.takeWhile isWSChar).reverse with
      | lastc :: _ :: _ => if lastc = '\n' then none else some [lastc]
      | _ => none

/-- Scan of the document for the first line-start hash title. -/
def titleScan : Bool → List Char → Option (List Char)
  | _, [] => none
  | atStart, c :: t =>
    if atStart ∧ c = '#' then
      match titleAt t with
      | some ttl => some ttl
      | none => titleScan false t
    else titleScan (c == '\n') t

/-- First markdown title of a document, trimmed. -/
def extractTitle (content : List Char) : Option (List Char) :=
  (titleScan true content).map trimL

/-- Attempt of the when-to-use heading match at the start of the string:
two hashes, optional whitespace, the words when to use case-insensitively,
a whitespace run containing a line break, then at least one character that
is neither a line break nor a hash. -/
def wtuAt (s : List Char) : Option (List Char) :=
  match s with
  | '#' :: '#' :: r1 =>
    match stripCI "when to use".data (r1.dropWhile isWSChar) with
    | none => none
    | some r2 =>
      match afterLastNL r2 with
      | none => none
      | some start =>
        if (start.takeWhile (fun c => !(c = '\n') && !(c = '#'))).isEmpty then none
        else some (start.takeWhile (fun c => !(c = '\n') && !(c = '#')))
  | _ => none

/-- Scan of the document for the first when-to-use description. -/
def wtuScan : List Char → Option (List Char)
  | [] => none
  | c :: t =>
    match wtuAt (c :: t) with
    | some d => some d
    | none => wtuScan t

/-- First-paragraph match after a line-start title: the hash, whitespace,
the title text, a run of line breaks, then at least one character that is
neither a line break nor a hash. -/
def fpAt (t : List Char) : Option (List Char) :=
  if (t.takeWhile isWSChar).isEmpty then none
  else
    match t.dropWhile isWSChar with
    | [] => none
    | d :: r =>
      match ((d :: r).dropWhile (fun c => !(c = '\n'))).takeWhile (fun c => c = '\n') with
      | [] => none
      | _ :: _ =>
        match (((d :: r).dropWhile (fun c => !(c = '\n'))).dropWhile (fun c => c = '\n')).takeWhile (fun c => !(c = '\n') && !(c = '#')) with
        | [] => none
        | e :: cap => some (e :: cap)

/-- Scan of the document for the paragraph after the first title. -/
def fpScan : Bool → List Char → Option (List Char)
  | _, [] => none
  | atStart, c :: t =>
    if atStart ∧ c = '#' then
      match fpAt t with
      | some d => some d
      | none => fpScan false t
    else fpScan (c == '\n') t

/-- Description of a document: the when-to-use paragraph if present, else
the paragraph after the first title, trimmed. -/
def extractDescription (content : List Char) : Option (List Char) :=
  match wtuScan content with
  | some d => some (trimL d)
  | none => (fpScan true content).map trimL

/-- Empty-string fallback of the JavaScript or-chains. -/
def strOr (a b : List Char) : List Char := if a.isEmpty then b else a

/-- Markdown parse of a skill document: frontmatter split, parameter
extraction from the body, and the falsy-chained name and description. -/
def parseMarkdown (content : List Char) : ParsedSkill :=
  match splitFrontmatter content with
  | some q =>
    { name := strOr (fmStrD (parseFrontmatter q.1) "name".data)
        ((extractTitle q.2).getD []),
      description := strOr (fmStrD (parseFrontmatter q.1) "description".data)
        ((extractDescription q.2).getD []),
      content := trimL q.2,
      metadata :=
        { author := (fmGetStr (parseFrontmatter q.1) "author".data).map String.mk,
          version := (fmGetStr (parseFrontmatter q.1) "version".data).map String.mk,
          tags := (fmGetArr (parseFrontmatter q.1) "tags".data).map
            (fun a => a.map String.mk),
          requirements := (fmGetArr (parseFrontmatter q.1) "requirements".data).map
            (fun a => a.map String.mk),
          sourceOrg := none, sourceRepo := none },
      parameters := extractParameters q.2 }
  | none =>
    { name := (extractTitle content).getD [],
      description := (extractDescription content).getD [],
      content := trimL content,
      metadata := { author := none, version := none, tags := none,
                    requirements := none, sourceOrg := none, sourceRepo := none },
      parameters := extractParameters content }

/-- Skill link discovered in an index-style readme. -/
structure SkillLink where
  name : List Char
  org : List Char
  repo : List Char
  path : List Char
  description : List Char
  url : List Char
deriving DecidableEq

/-- Partial override of a parsed skill, loaded from the overrides file. -/
structure POverride where
  name : Option (List Char) := none
  description : Option (List Char) := none
  content : Option (List Char) := none
  metadata : Option SkillMetadata := none
  parameters : Option (List ParameterSchema) := none
deriving DecidableEq

/-- Field-wise assignment of an override onto a parsed skill. -/
def applyOverride (p : ParsedSkill) (o : POverride) : ParsedSkill :=
  { name := o.name.getD p.name,
    description := o.description.getD p.description,
    content := o.content.getD p.content,
    metadata := o.metadata.getD p.metadata,
    parameters := o.parameters.getD p.parameters }

/-- Override registered for a skill id, if any. -/
def getOverride (ovr : List (List Char × POverride)) (k : List Char) : Option POverride :=
  (ovr.find? (fun q => q.1 == k)).map (fun q => q.2)

/-- Last path component, as split on slashes followed by pop. -/
def lastPathComp (s : List Char) : List Char :=
  ((splitOnChar '/' s).getLast?).getD []

/-- Skill id of a link: the last path component, or the link name when it
is empty, normalized. -/
def skillIdOf (link : SkillLink) : List Char :=
  normalizeSkillId (strOr (lastPathComp link.path) link.name)

/-- Candidate file names tried against the raw content host, in order. -/
def candidateFiles : List (List Char) :=
  ["SKILL.md".data, "README.md".data, "skill.md".data]

/-- Raw content URL of a candidate file of a link. -/
def rawUrl (link : SkillLink) (file : List Char) : List Char :=
  "https://raw.githubusercontent.com/".data ++ link.org ++ "/".data ++ link.repo ++
    "/main/".data ++ link.path ++ "/".data ++ file

/-- Skill record built from a successful fetch of a link. -/
def skillFromParsed (src : SourceKind) (now : Int) (link : SkillLink)
    (parsed : ParsedSkill) : Skill :=
  { id := String.mk (skillIdOf link),
    name := String.mk (strOr parsed.name (strOr (lastPathComp link.name) (skillIdOf link))),
    description := String.mk (strOr parsed.description link.description),
    source := src,
    sourcePath := String.mk link.url,
    content := String.mk parsed.content,
    parameters := some parsed.parameters,
    metadata := { parsed.metadata with
                  sourceOrg := some (String.mk link.org),
                  sourceRepo := some (String.mk link.repo) },
    lastUpdated := now }

/-- Candidate loop of the GitHub fetch: the first candidate file whose
fetch yields content produces the skill; a failed fetch, standing for a
non-ok response as well as a thrown error absorbed by the per-candidate
catch, moves on to the next candidate. -/
def fetchFiles (fetch : List Char → Option (List Char))
    (ovr : List (List Char × POverride)) (src : SourceKind) (now : Int)
    (link : SkillLink) : List (List Char) → Option Skill
  | [] => none
  | f :: fs =>
    match fetch (rawUrl link f) with
    | some content =>
      match getOverride ovr (skillIdOf link) with
      | some o => some (skillFromParsed src now link (applyOverride (parseMarkdown content) o))
      | none => some (skillFromParsed src now link (parseMarkdown content))
    | none => fetchFiles fetch ovr src now link fs

/-- Fetch of one skill link: every per-candidate failure is absorbed
inside the loop, so the only outcomes are a skill or the null result;
the function never throws. -/
def fetchSkillFromGitHub (fetch : List Char → Option (List Char))
    (ovr : List (List Char × POverride)) (src : SourceKind) (now : Int)
    (link : SkillLink) : Option Skill :=
  fetchFiles fetch ovr src now link candidateFiles

/-- Stub skill synthesized from a link alone. -/
def createSkillStub (src : SourceKind) (now : Int) (link : SkillLink) : Skill :=
  { id := String.mk (skillIdOf link),
    name := String.mk (strOr (lastPathComp link.name) (skillIdOf link)),
    description := String.mk link.description,
    source := src,
    sourcePath := String.mk link.url,
    content := String.mk ("# ".data ++ link.name ++ "\n\n".data ++ link.description ++
      "\n\n## Source\n\nThis skill is available at: ".data ++ link.url ++
      "\n\nPlease visit the source repository for full documentation and usage instructions.".data),
    parameters := some [],
    metadata := { author := none, version := none, tags := none, requirements := none,
                  sourceOrg := some (String.mk link.org),
                  sourceRepo := some (String.mk link.repo) },
    lastUpdated := now }

/-- Link loop of the readme parser: the loop body wraps the fetch in a
try block whose catch synthesizes a stub, but the fetch function absorbs
all of its failures and returns the null result instead of throwing, so
the loop reduces to keeping the non-null fetch results. -/
def parseSkillsFromLinks (fetch : List Char → Option (List Char))
    (ovr : List (List Char × POverride)) (src : SourceKind) (now : Int)
    (links : List SkillLink) : List Skill :=
  links.filterMap (fetchSkillFromGitHub fetch ovr src now)

/-- Demonstration link of an index readme entry. -/
def demoLink : SkillLink :=
  { name := "org/my-skill".data,
    org := "org".data,
    repo := "repo".data,
    path := "skills/my-skill".data,
    description := "A skill.".data,
    url := "https://github.com/org/repo/tree/main/skills/my-skill".data }


lemma keep_not_upper {c : Char} (h : isKeepChar c = true) : isUpperAZ c = false := by
  simp [isKeepChar] at h
  simp [isUpperAZ]
  omega

lemma lowerChar_fix {c : Char} (h : isUpperAZ c = false) : lowerChar c = c := by
  simp [lowerChar, h]

lemma collapseAux_mem :
    ∀ (s : List Char) (b : Bool) (c : Char), c ∈ collapseAux b s →
      isKeepChar c = true ∨ c = '-' := by
  intro s
  induction s with
  | nil => intro b c h; simp [collapseAux] at h
  | cons a t ih =>
    intro b c h
    by_cases hk : isKeepChar a = true
    · simp [collapseAux, hk] at h
      rcases h with h | h
      · exact Or.inl (h ▸ hk)
      · exact ih false c h
    · simp [collapseAux, hk] at h
      cases b with
      | true => exact ih true c h
      | false =>
        simp at h
        rcases h with h | h
        · exact Or.inr h
        · exact ih true c h

lemma collapseAux_chain :
    ∀ (s : List Char) (b : Bool),
      List.Chain' sepOK (collapseAux b s) ∧
      (b = true → ∀ c, (collapseAux b s).head? = some c → isKeepChar c = true) := by
  intro s
  induction s with
  | nil => intro b; simp [collapseAux]
  | cons a t ih =>
    intro b
    by_cases hk : isKeepChar a = true
    · constructor
      · simp only [collapseAux, hk, if_pos]
        rw [List.chain'_cons']
        refine ⟨?_, (ih false).1⟩
        intro h _
        exact Or.inl hk
      · intro _ c hc
        simp only [collapseAux, hk, if_pos] at hc
        simp at hc
        exact hc ▸ hk
    · cases b with
      | true =>
        constructor
        · simpa [collapseAux, hk] using (ih true).1
        · intro _ c hc
          simp only [collapseAux, hk] at hc
          simp at hc
          exact (ih true).2 rfl c hc
      | false =>
        constructor
        · simp only [collapseAux, hk, if_neg, Bool.false_eq_true, if_false]
          rw [List.chain'_cons']
          refine ⟨?_, (ih true).1⟩
          intro h hh
          exact Or.inr ((ih true).2 rfl h hh)
        · intro hb; cases hb

lemma chain'_dropWhile {R : Char → Char → Prop} {p : Char → Bool} :
    ∀ {l : List Char}, List.Chain' R l → List.Chain' R (l.dropWhile p) := by
  intro l
  induction l with
  | nil => intro h; simp [List.dropWhile]
  | cons a t ih =>
    intro h
    by_cases hp : p a = true
    · simp only [List.dropWhile, hp]
      exact ih h.tail
    · simpa only [List.dropWhile, hp] using h

lemma head?_dropWhile {p : Char → Bool} :
    ∀ {l : List Char} {c : Char}, (l.dropWhile p).head? = some c → p c = false := by
  intro l
  induction l with
  | nil => intro c h; simp [List.dropWhile] at h
  | cons a t ih =>
    intro c h
    by_cases hp : p a = true
    · simp only [List.dropWhile, hp] at h
      exact ih h
    · simp only [List.dropWhile, hp] at h
      simp at h
      rw [h] at hp
      simpa using hp

lemma getLast?_dropWhile {p : Char → Bool} :
    ∀ {l : List Char}, l.dropWhile p ≠ [] → (l.dropWhile p).getLast? = l.getLast? := by
  intro l
  induction l with
  | nil => intro h; simp [List.dropWhile] at h
  | cons a t ih =>
    intro h
    by_cases hp : p a = true
    · simp only [List.dropWhile, hp] at h ⊢
      rw [ih h]
      have ht : t ≠ [] := by
        intro he; rw [he] at h; simp [List.dropWhile] at h
      cases t with
      | nil => exact absurd rfl ht
      | cons b u => exact (List.getLast?_cons_cons).symm
    · simp only [List.dropWhile, hp]

lemma mapLower_fix :
    ∀ {l : List Char}, (∀ c ∈ l, isUpperAZ c = false) → l.map lowerChar = l := by
  intro l
  induction l with
  | nil => intro _; rfl
  | cons a t ih =>
    intro h
    simp only [List.map_cons]
    rw [lowerChar_fix (h a (by simp)), ih (fun c hc => h c (by simp [hc]))]

lemma collapseAux_fix :
    ∀ (l : List Char), (∀ c ∈ l, isKeepChar c = true ∨ c = '-') →
      List.Chain' sepOK l →
      collapseAux false l = l ∧
      ((∀ c, l.head? = some c → isKeepChar c = true) → collapseAux true l = l) := by
  intro l
  induction l with
  | nil => intro _ _; exact ⟨rfl, fun _ => rfl⟩
  | cons a t ih =>
    intro hmem hch
    have hmt : ∀ c ∈ t, isKeepChar c = true ∨ c = '-' :=
      fun c hc => hmem c (by simp [hc])
    have iht := ih hmt hch.tail
    by_cases hk : isKeepChar a = true
    · constructor
      · simp only [collapseAux, hk, if_pos]
        rw [iht.1]
      · intro _
        simp only [collapseAux, hk, if_pos]
        rw [iht.1]
    · have ha : a = '-' := by
        rcases hmem a (by simp) with h | h
        · exact absurd h hk
        · exact h
      have hthead : ∀ c, t.head? = some c → isKeepChar c = true := by
        intro c hc
        rw [List.chain'_cons'] at hch
        rcases hch.1 c hc with h | h
        · rw [ha] at h
          exact absurd h (by decide)
        · exact h
      constructor
      · simp only [collapseAux, hk, Bool.false_eq_true, if_neg, if_false]
        rw [iht.2 hthead, ha]
      · intro hhead
        have := hhead a (by simp)
        exact absurd this hk

lemma trimDashes_fix {l : List Char}
    (h1 : l.head? ≠ some '-') (h2 : l.getLast? ≠ some '-') : trimDashes l = l := by
  unfold trimDashes
  have e1 : l.dropWhile (fun c => c = '-') = l := by
    cases l with
    | nil => rfl
    | cons a t =>
      have : (a = '-') = False := by
        simp at h1
        simp [h1]
      simp [List.dropWhile, this]
  rw [e1]
  have e2 : l.reverse.dropWhile (fun c => c = '-') = l.reverse := by
    cases hr : l.reverse with
    | nil => rfl
    | cons a t =>
      have ha : l.getLast? = some a := by
        rw [← List.head?_reverse l, hr]; rfl
      have : (a = '-') = False := by
        have : a ≠ '-' := by intro he; rw [he] at ha; exact h2 ha
        simp [this]
      simp [List.dropWhile, this]
  rw [e2, List.reverse_reverse]

lemma chain'_sepOK_reverse {l : List Char} (h : List.Chain' sepOK l) :
    List.Chain' sepOK l.reverse := by
  rw [List.chain'_reverse]
  exact List.Chain'.imp (fun a b hab => Or.symm hab) h

/-- C7: skill-id normalization is idempotent, its output never holds an
upper-case character, every character of the output is a lower-case
alphanumeric or the dash separator, the output never begins or ends with
the separator, and no two adjacent output characters are both
non-alphanumeric. -/
theorem c7_normalize_idempotent_canonical (s : List Char) :
    normalizeSkillId (normalizeSkillId s) = normalizeSkillId s
    ∧ (normalizeSkillId s).all (fun c => !(isUpperAZ c)) = true
    ∧ (normalizeSkillId s).all (fun c => isKeepChar c || c = '-') = true
    ∧ (normalizeSkillId s).head? ≠ some '-'
    ∧ (normalizeSkillId s).getLast? ≠ some '-'
    ∧ List.Chain' sepOK (normalizeSkillId s) := by
  have hmem_y : ∀ c ∈ collapseRuns (s.map lowerChar),
      isKeepChar c = true ∨ c = '-' :=
    fun c hc => collapseAux_mem _ false c hc
  have hch_y : List.Chain' sepOK (collapseRuns (s.map lowerChar)) :=
    (collapseAux_chain _ false).1
  have hout : normalizeSkillId s =
      (((collapseRuns (s.map lowerChar)).dropWhile (fun c => c = '-')).reverse.dropWhile
        (fun c => c = '-')).reverse := rfl
  have hmem_out : ∀ c ∈ normalizeSkillId s, isKeepChar c = true ∨ c = '-' := by
    intro c hc
    rw [hout, List.mem_reverse] at hc
    have hc2 := (List.dropWhile_sublist _).mem hc
    rw [List.mem_reverse] at hc2
    exact hmem_y c ((List.dropWhile_sublist _).mem hc2)
  have hch_out : List.Chain' sepOK (normalizeSkillId s) := by
    rw [hout]
    exact chain'_sepOK_reverse (chain'_dropWhile (chain'_sepOK_reverse (chain'_dropWhile hch_y)))
  have hhead : (normalizeSkillId s).head? ≠ some '-' := by
    rw [hout]
    intro hcon
    rw [List.head?_reverse] at hcon
    have hne : ((collapseRuns (s.map lowerChar)).dropWhile
        (fun c => c = '-')).reverse.dropWhile (fun c => c = '-') ≠ [] := by
      intro he; rw [he] at hcon; simp at hcon
    rw [getLast?_dropWhile hne, List.getLast?_reverse] at hcon
    have := head?_dropWhile hcon
    simp at this
  have hlast : (normalizeSkillId s).getLast? ≠ some '-' := by
    rw [hout]
    intro hcon
    rw [← List.head?_reverse, List.reverse_reverse] at hcon
    have := head?_dropWhile hcon
    simp at this
  have hupper : ∀ c ∈ normalizeSkillId s, isUpperAZ c = false := by
    intro c hc
    rcases hmem_out c hc with h | h
    · exact keep_not_upper h
    · rw [h]; decide
  refine ⟨?_, ?_, ?_, hhead, hlast, hch_out⟩
  · show trimDashes (collapseRuns ((normalizeSkillId s).map lowerChar)) = normalizeSkillId s
    rw [mapLower_fix hupper]
    rw [show collapseRuns (normalizeSkillId s) = normalizeSkillId s from
      (collapseAux_fix _ hmem_out hch_out).1]
    exact trimDashes_fix hhead hlast
  · rw [List.all_eq_true]
    intro c hc
    simp [hupper c hc]
  · rw [List.all_eq_true]
    intro c hc
    rcases hmem_out c hc with h | h
    · simp [h]
    · simp [h]

lemma getKV_cons (k1 : String) (v1 : Skill) (l : List (String × Skill)) (k : String) :
    getKV ((k1, v1) :: l) k = if k1 = k then some v1 else getKV l k := by
  by_cases h : k1 = k
  · simp [getKV, List.find?, h]
  · have hb : (k1 == k) = false := by simp [h]
    simp [getKV, List.find?, hb, h]

lemma getKV_setKV_self (m : List (String × Skill)) (k : String) (v : Skill) :
    getKV (setKV m k v) k = some v := by
  induction m with
  | nil => simp [setKV, getKV_cons, getKV]
  | cons p rest ih =>
    cases p with
    | mk k1 v1 =>
      by_cases h : k1 = k
      · simp [setKV, h, getKV_cons]
      · rw [show setKV ((k1, v1) :: rest) k v = (k1, v1) :: setKV rest k v by
          simp [setKV, h]]
        rw [getKV_cons, if_neg h]
        exact ih

lemma getKV_setKV_ne (m : List (String × Skill)) (k k2 : String) (v : Skill)
    (h : k2 ≠ k) : getKV (setKV m k v) k2 = getKV m k2 := by
  induction m with
  | nil => simp [setKV, getKV_cons, getKV, Ne.symm h]
  | cons p rest ih =>
    cases p with
    | mk k1 v1 =>
      by_cases h1 : k1 = k
      · subst h1
        rw [show setKV ((k1, v1) :: rest) k1 v = (k1, v) :: rest by simp [setKV]]
        rw [getKV_cons, getKV_cons]
        rw [if_neg (fun he => h he.symm), if_neg (fun he => h he.symm)]
      · rw [show setKV ((k1, v1) :: rest) k v = (k1, v1) :: setKV rest k v by
          simp [setKV, h1]]
        rw [getKV_cons, getKV_cons, ih]

lemma registerSkill_fresh {r : SkillRegistry} {s : Skill}
    (h : getKV r.skills s.id = none) :
    registerSkill r s = { r with skills := setKV r.skills s.id s } := by
  unfold registerSkill
  rw [h]

lemma registerSkill_existing {r : SkillRegistry} {s e : Skill}
    (h : getKV r.skills s.id = some e) :
    registerSkill r s =
      if resolvedPriority r s.source < resolvedPriority r e.source then r
      else { r with skills := setKV r.skills s.id s } := by
  unfold registerSkill
  rw [h]

lemma registerSkill_sources (r : SkillRegistry) (s : Skill) :
    (registerSkill r s).sources = r.sources := by
  cases h : getKV r.skills s.id with
  | none => rw [registerSkill_fresh h]
  | some e =>
    rw [registerSkill_existing h]
    by_cases hp : resolvedPriority r s.source < resolvedPriority r e.source
    · rw [if_pos hp]
    · rw [if_neg hp]

lemma registerSkill_cachePath (r : SkillRegistry) (s : Skill) :
    (registerSkill r s).cachePath = r.cachePath := by
  cases h : getKV r.skills s.id with
  | none => rw [registerSkill_fresh h]
  | some e =>
    rw [registerSkill_existing h]
    by_cases hp : resolvedPriority r s.source < resolvedPriority r e.source
    · rw [if_pos hp]
    · rw [if_neg hp]

lemma registerSkill_lastSync (r : SkillRegistry) (s : Skill) :
    (registerSkill r s).lastSync = r.lastSync := by
  cases h : getKV r.skills s.id with
  | none => rw [registerSkill_fresh h]
  | some e =>
    rw [registerSkill_existing h]
    by_cases hp : resolvedPriority r s.source < resolvedPriority r e.source
    · rw [if_pos hp]
    · rw [if_neg hp]

lemma resolvedPriority_sources_eq {r1 r2 : SkillRegistry} (h : r1.sources = r2.sources)
    (k : SourceKind) : resolvedPriority r1 k = resolvedPriority r2 k := by
  unfold resolvedPriority
  rw [h]

/-- C2: `registerSkill` discards the incoming skill exactly when its
resolved priority is strictly lower than the existing skill's resolved
priority; consequently, for a fresh id, registering a record of resolved
priority p1 and then one of resolved priority p2 with p1 le p2 leaves the
second record, registering them in the other order with p1 lt p2 also
leaves the higher-priority record, and equal priorities resolve to the
later registration. -/
theorem c2_register_priority_rule :
    (∀ (r : SkillRegistry) (s : Skill),
      getKV (registerSkill r s).skills s.id =
        (match getKV r.skills s.id with
        | some e =>
          if resolvedPriority r s.source < resolvedPriority r e.source then some e else some s
        | none => some s))
    ∧ (∀ (r : SkillRegistry) (s1 s2 : Skill), s1.id = s2.id →
        getKV r.skills s1.id = none →
        (resolvedPriority r s1.source ≤ resolvedPriority r s2.source →
          getKV (registerSkill (registerSkill r s1) s2).skills s2.id = some s2)
        ∧ (resolvedPriority r s1.source < resolvedPriority r s2.source →
          getKV (registerSkill (registerSkill r s2) s1).skills s1.id = some s2)) := by
  constructor
  · intro r s
    cases h : getKV r.skills s.id with
    | none =>
      rw [registerSkill_fresh h]
      exact getKV_setKV_self _ _ _
    | some e =>
      rw [registerSkill_existing h]
      by_cases hp : resolvedPriority r s.source < resolvedPriority r e.source
      · rw [if_pos hp]
        show getKV r.skills s.id = if _ then some e else some s
        rw [h, if_pos hp]
      · rw [if_neg hp]
        show getKV (setKV r.skills s.id s) s.id = if _ then some e else some s
        rw [if_neg hp]
        exact getKV_setKV_self _ _ _
  · intro r s1 s2 hid hnone
    have hnone2 : getKV r.skills s2.id = none := by rw [← hid]; exact hnone
    have e1 := registerSkill_fresh hnone
    have e1b := registerSkill_fresh hnone2
    constructor
    · intro hle
      have hget : getKV (registerSkill r s1).skills s2.id = some s1 := by
        rw [e1, ← hid]
        exact getKV_setKV_self _ _ _
      rw [registerSkill_existing hget]
      have hsrc : (registerSkill r s1).sources = r.sources := registerSkill_sources r s1
      rw [if_neg (by
        rw [resolvedPriority_sources_eq hsrc, resolvedPriority_sources_eq hsrc]
        omega)]
      exact getKV_setKV_self _ _ _
    · intro hlt
      have hget : getKV (registerSkill r s2).skills s1.id = some s2 := by
        rw [e1b, hid]
        exact getKV_setKV_self _ _ _
      rw [registerSkill_existing hget]
      have hsrc : (registerSkill r s2).sources = r.sources := registerSkill_sources r s2
      rw [if_pos (by
        rw [resolvedPriority_sources_eq hsrc, resolvedPriority_sources_eq hsrc]
        exact hlt)]
      exact hget

theorem c2_register_priority_rule_witness :
    getKV (registerSkill (registerSkill demoRegistry (demoSkill "s" "a" SourceKind.repository))
        (demoSkill "s" "b" SourceKind.localDir)).skills "s" =
      some (demoSkill "s" "b" SourceKind.localDir) ∧
    getKV (registerSkill (registerSkill demoRegistry (demoSkill "s" "b" SourceKind.localDir))
        (demoSkill "s" "a" SourceKind.repository)).skills "s" =
      some (demoSkill "s" "b" SourceKind.localDir) := by
  have h := c2_register_priority_rule.2 demoRegistry
    (demoSkill "s" "a" SourceKind.repository) (demoSkill "s" "b" SourceKind.localDir)
    rfl (by decide)
  exact ⟨h.1 (by decide), h.2 (by decide)⟩

lemma registerSkill_no_sources {r : SkillRegistry} (h : r.sources = []) (s : Skill) :
    registerSkill r s = { r with skills := setKV r.skills s.id s } := by
  cases hg : getKV r.skills s.id with
  | none => exact registerSkill_fresh hg
  | some e =>
    rw [registerSkill_existing hg]
    rw [if_neg (by simp [resolvedPriority, h])]

lemma fold_register_no_sources :
    ∀ (l : List Skill) (r : SkillRegistry), r.sources = [] →
      l.foldl registerSkill r =
        { r with skills := l.foldl (fun m s => setKV m s.id s) r.skills } := by
  intro l
  induction l with
  | nil => intro r _; rfl
  | cons s t ih =>
    intro r h
    rw [List.foldl_cons, registerSkill_no_sources h s, ih _ (by exact h)]
    rfl

lemma getKV_fold_set (sid : String) :
    ∀ (l : List Skill) (m : List (String × Skill)),
      getKV (l.foldl (fun m s => setKV m s.id s) m) sid =
        (match (l.filter (fun s => s.id == sid)).getLast? with
        | some s => some s
        | none => getKV m sid) := by
  intro l
  induction l with
  | nil => intro m; rfl
  | cons s t ih =>
    intro m
    rw [List.foldl_cons, ih]
    by_cases h : s.id = sid
    · rw [show (s :: t).filter (fun s => s.id == sid) =
          s :: t.filter (fun s => s.id == sid) by rw [List.filter_cons]; simp [h]]
      cases hft : t.filter (fun s => s.id == sid) with
      | nil =>
        show getKV (setKV m s.id s) sid = some s
        rw [← h]
        exact getKV_setKV_self _ _ _
      | cons u us =>
        rw [List.getLast?_cons_cons]
        cases hgl : (u :: us).getLast? with
        | none => simp at hgl
        | some w => rfl
    · rw [show (s :: t).filter (fun s => s.id == sid) =
          t.filter (fun s => s.id == sid) by rw [List.filter_cons]; simp [h]]
      cases hft : (t.filter (fun s => s.id == sid)).getLast? with
      | none => rw [getKV_setKV_ne _ _ _ _ (fun he => h he.symm)]
      | some u => rfl

lemma addSource_skills (r : SkillRegistry) (s : RepositorySource) :
    (addSource r s).skills = r.skills := rfl

lemma fold_addSource_skills :
    ∀ (l : List RepositorySource) (r : SkillRegistry),
      (l.foldl addSource r).skills = r.skills := by
  intro l
  induction l with
  | nil => intro r; rfl
  | cons s t ih =>
    intro r
    rw [List.foldl_cons, ih]
    exact addSource_skills r s

/-- C10: reconstruction from a snapshot registers all skills before any
source descriptor is added, so every replayed registration resolves both
priorities to the default 0 and never discards; consequently, the skill
stored under an id after reconstruction is always the last snapshot entry
carrying that id, regardless of the priorities recorded in the snapshot's
sources. -/
theorem c10_restore_last_entry_wins (d : RegistrySnapshot) (sid : String) :
    getKV (fromJSON d).skills sid =
      (d.skills.filter (fun s => s.id == sid)).getLast? := by
  unfold fromJSON
  have hskills : (fromJSON d).skills =
      d.skills.foldl (fun m s => setKV m s.id s) [] := by
    unfold fromJSON
    cases d.lastSync with
    | none =>
      rw [fold_addSource_skills]
      rw [fold_register_no_sources _ _ rfl]
    | some t =>
      show (setLastSync _ _).skills = _
      unfold setLastSync
      rw [fold_addSource_skills]
      rw [fold_register_no_sources _ _ rfl]
  cases d.lastSync with
  | none =>
    rw [fold_addSource_skills]
    rw [fold_register_no_sources _ _ rfl]
    show getKV (d.skills.foldl (fun m s => setKV m s.id s) []) sid = _
    rw [getKV_fold_set]
    cases (d.skills.filter (fun s => s.id == sid)).getLast? with
    | none => rfl
    | some u => rfl
  | some t =>
    show getKV (setLastSync _ _).skills sid = _
    unfold setLastSync
    show getKV ((d.sources.foldl addSource _).skills) sid = _
    rw [fold_addSource_skills]
    rw [fold_register_no_sources _ _ rfl]
    show getKV (d.skills.foldl (fun m s => setKV m s.id s) []) sid = _
    rw [getKV_fold_set]
    cases (d.skills.filter (fun s => s.id == sid)).getLast? with
    | none => rfl
    | some u => rfl

lemma getKV_append (l1 l2 : List (String × Skill)) (k : String) :
    getKV (l1 ++ l2) k =
      (match getKV l1 k with
      | some v => some v
      | none => getKV l2 k) := by
  induction l1 with
  | nil => simp [getKV]
  | cons p rest ih =>
    cases p with
    | mk k1 v1 =>
      by_cases h : k1 = k
      · rw [List.cons_append, getKV_cons, getKV_cons, if_pos h, if_pos h]
      · rw [List.cons_append, getKV_cons, getKV_cons, if_neg h, if_neg h, ih]

lemma setKV_append {m : List (String × Skill)} {k : String} (v : Skill)
    (h : getKV m k = none) : setKV m k v = m ++ [(k, v)] := by
  induction m with
  | nil => rfl
  | cons p rest ih =>
    cases p with
    | mk k1 v1 =>
      rw [getKV_cons] at h
      by_cases h1 : k1 = k
      · rw [if_pos h1] at h
        exact absurd h (by simp)
      · rw [if_neg h1] at h
        rw [show setKV ((k1, v1) :: rest) k v = (k1, v1) :: setKV rest k v by
          simp [setKV, h1]]
        rw [ih h, List.cons_append]

lemma fold_set_rebuild :
    ∀ (l : List (String × Skill)) (acc : List (String × Skill)),
      (∀ p ∈ l, p.1 = p.2.id) →
      (l.map Prod.fst).Nodup →
      (∀ p ∈ l, getKV acc p.1 = none) →
      (l.map (fun p => p.2)).foldl (fun m s => setKV m s.id s) acc = acc ++ l := by
  intro l
  induction l with
  | nil => intro acc _ _ _; simp
  | cons p t ih =>
    intro acc hkm hnd hdis
    cases p with
    | mk k s =>
      have hks : k = s.id := hkm (k, s) (by simp)
      rw [List.map_cons, List.foldl_cons]
      have hsets : setKV acc s.id s = acc ++ [(k, s)] := by
        rw [← hks]
        exact setKV_append s (hdis (k, s) (by simp))
      rw [hsets]
      have hnd2 : (t.map Prod.fst).Nodup := by
        rw [List.map_cons] at hnd
        exact hnd.of_cons
      have hknotin : ∀ q ∈ t, q.1 ≠ k := by
        intro q hq he
        rw [List.map_cons] at hnd
        rcases List.nodup_cons.mp hnd with ⟨hni, _⟩
        exact hni (he ▸ (List.mem_map.mpr ⟨q, hq, rfl⟩))
      have hdis2 : ∀ q ∈ t, getKV (acc ++ [(k, s)]) q.1 = none := by
        intro q hq
        rw [getKV_append, hdis q (by simp [hq])]
        rw [getKV_cons, if_neg (fun he => hknotin q hq he.symm)]
        rfl
      rw [ih (acc ++ [(k, s)]) (fun q hq => hkm q (by simp [hq])) hnd2 hdis2]
      simp

lemma insDesc_append {acc : List RepositorySource} {x : RepositorySource}
    (h : ∀ y ∈ acc, x.priority ≤ y.priority) : insDesc acc x = acc ++ [x] := by
  induction acc with
  | nil => rfl
  | cons y ys ih =>
    have hxy := h y (by simp)
    rw [show insDesc (y :: ys) x = if x.priority > y.priority then x :: y :: ys
        else y :: insDesc ys x from rfl]
    rw [if_neg (by omega)]
    rw [ih (fun z hz => h z (by simp [hz])), List.cons_append]

lemma foldl_insDesc_fix :
    ∀ (l acc : List RepositorySource), sortedDesc (acc ++ l) →
      l.foldl insDesc acc = acc ++ l := by
  intro l
  induction l with
  | nil => intro acc _; simp
  | cons s t ih =>
    intro acc h
    rw [List.foldl_cons]
    have hins : insDesc acc s = acc ++ [s] := by
      apply insDesc_append
      intro y hy
      rcases List.pairwise_append.mp h with ⟨_, _, hrel⟩
      exact hrel y hy s (by simp)
    rw [hins, ih (acc ++ [s]) (by simpa using h)]
    simp

lemma sortByPriority_fix {l : List RepositorySource} (h : sortedDesc l) :
    sortByPriority l = l := by
  unfold sortByPriority
  exact foldl_insDesc_fix l [] (by simpa using h)

lemma fold_addSource_rebuild :
    ∀ (l : List RepositorySource) (r : SkillRegistry), sortedDesc (r.sources ++ l) →
      l.foldl addSource r = { r with sources := r.sources ++ l } := by
  intro l
  induction l with
  | nil => intro r _; simp
  | cons s t ih =>
    intro r h
    rw [List.foldl_cons]
    have hadds : addSource r s = { r with sources := r.sources ++ [s] } := by
      unfold addSource
      rw [sortByPriority_fix (by
        have hs : List.Sublist (r.sources ++ [s]) (r.sources ++ s :: t) := by
          apply List.Sublist.append_left
          simp
        exact h.sublist hs)]
    rw [hadds, ih _ (by simpa using h)]
    simp

/-- C6: serializing a well-formed registry to a snapshot and
reconstructing from it is lossless: the reconstructed registry carries
exactly the same skill map, the same source descriptors, the same cache
path and the same last-sync value, with `registerSkill` replayed per
skill during reconstruction. -/
theorem c6_snapshot_roundtrip (r : SkillRegistry) (h : registryWF r) :
    fromJSON (toJSON r) = r := by
  obtain ⟨hkm, hnd, hsort⟩ := h
  cases r with
  | mk sk src cp ls =>
    have hkm2 : ∀ p ∈ sk, p.1 = p.2.id := hkm
    have hnd2 : (sk.map Prod.fst).Nodup := hnd
    have hsort2 : sortedDesc src := hsort
    have h1 : (sk.map (fun p => p.2)).foldl registerSkill
        { skills := [], sources := [], cachePath := cp, lastSync := none } =
        { skills := sk, sources := [], cachePath := cp, lastSync := none } := by
      rw [fold_register_no_sources _ _ rfl]
      have h2 : (sk.map (fun p => p.2)).foldl (fun m s => setKV m s.id s) [] = sk := by
        have h3 := fold_set_rebuild sk [] hkm2 hnd2 (fun p _ => rfl)
        simpa using h3
      show ({ skills := (sk.map (fun p => p.2)).foldl (fun m s => setKV m s.id s) [],
              sources := [], cachePath := cp, lastSync := none } : SkillRegistry) = _
      rw [h2]
    have h4 : src.foldl addSource
        { skills := sk, sources := [], cachePath := cp, lastSync := none } =
        { skills := sk, sources := src, cachePath := cp, lastSync := none } := by
      rw [fold_addSource_rebuild _ _ (by simpa using hsort2)]
      show ({ skills := sk, sources := [] ++ src, cachePath := cp,
              lastSync := none } : SkillRegistry) = _
      rw [List.nil_append]
    cases ls with
    | none =>
      show src.foldl addSource
          ((sk.map (fun (p : String × Skill) => p.2)).foldl registerSkill
          { skills := [], sources := [], cachePath := cp, lastSync := none }) =
        { skills := sk, sources := src, cachePath := cp, lastSync := none }
      rw [h1, h4]
    | some t =>
      show setLastSync (src.foldl addSource
          ((sk.map (fun (p : String × Skill) => p.2)).foldl registerSkill
          { skills := [], sources := [], cachePath := cp, lastSync := none })) t =
        { skills := sk, sources := src, cachePath := cp, lastSync := some t }
      rw [h1, h4]
      rfl

theorem c6_snapshot_roundtrip_witness :
    fromJSON (toJSON demoRegistry2) = demoRegistry2 :=
  c6_snapshot_roundtrip demoRegistry2 (by
    refine ⟨?_, ?_, ?_⟩
    · decide
    · decide
    · unfold sortedDesc demoRegistry2 demoRegistry
      decide)

lemma validateParameters_none {r : SkillRegistry} {sid : String}
    {params : List (String × JSValue)} (h : getSkill r sid = none) :
    validateParameters r sid params =
      { valid := false, errors := some ["Skill not found: " ++ sid] } := by
  unfold validateParameters
  rw [h]

lemma validateParameters_some {r : SkillRegistry} {sid : String} {skill : Skill}
    {params : List (String × JSValue)} (h : getSkill r sid = some skill) :
    validateParameters r sid params =
      { valid := (allErrs skill params).isEmpty,
        errors := if (allErrs skill params).isEmpty then none
          else some (allErrs skill params) } := by
  unfold validateParameters allErrs
  rw [h]

lemma paramErrs_length_fold :
    ∀ (ps : List ParameterSchema) (params : List (String × JSValue)),
      ((ps.map (paramErrs params)).flatten).length =
        (ps.filter (fun p => p.required && !(hasKey params p.name))).length +
        (ps.filter (fun p => hasKey params p.name &&
          !(validateParameterValue p (getVal params p.name)).1)).length := by
  intro ps params
  induction ps with
  | nil => rfl
  | cons p t ih =>
    rw [List.map_cons, List.flatten_cons, List.length_append, ih]
    rw [List.filter_cons, List.filter_cons]
    by_cases hreq : (p.required && !(hasKey params p.name)) = true
    · have hnk : hasKey params p.name = false := by
        rcases Bool.and_eq_true_iff.mp hreq with ⟨_, hnot⟩
        simpa using hnot
      rw [if_pos hreq, if_neg (by simp [hnk])]
      rw [show paramErrs params p = ["Missing required parameter: " ++ p.name] by
        unfold paramErrs
        rw [if_pos hreq]]
      simp only [List.length_cons, List.length_singleton, List.length_nil]
      omega
    · rw [if_neg hreq]
      by_cases hk : hasKey params p.name = true
      · cases hv : validateParameterValue p (getVal params p.name) with
        | mk b e =>
          cases b with
          | true =>
            rw [if_neg (by simp [hv])]
            rw [show paramErrs params p = [] by
              unfold paramErrs
              rw [if_neg hreq, if_pos hk, hv]]
            simp only [List.length_nil]
            omega
          | false =>
            rw [if_pos (by simp [hk, hv])]
            rw [show paramErrs params p =
                ["Invalid parameter " ++ p.name ++ ": " ++ e.getD "Validation failed"] by
              unfold paramErrs
              rw [if_neg hreq, if_pos hk, hv]]
            simp only [List.length_cons, List.length_singleton, List.length_nil]
            omega
      · rw [if_neg (by simp [hk])]
        rw [show paramErrs params p = [] by
          unfold paramErrs
          rw [if_neg hreq, if_neg hk]]
        simp only [List.length_nil]
        omega

/-- C4: validation of an unknown id yields an invalid result carrying the
not-found error; for a known skill the error list holds exactly one entry
per missing required parameter, one per present parameter failing its
schema, and one per undeclared key, and the result is valid exactly when
no error was collected; in particular the skill with required parameters
a and b called with only the unknown key z collects three violations. -/
theorem c4_validate_parameters_exhaustive :
    (∀ (r : SkillRegistry) (sid : String) (params : List (String × JSValue)),
      getSkill r sid = none →
      validateParameters r sid params =
        { valid := false, errors := some ["Skill not found: " ++ sid] })
    ∧ (∀ (r : SkillRegistry) (sid : String) (skill : Skill)
        (params : List (String × JSValue)),
      getSkill r sid = some skill →
      ((validateParameters r sid params).errors.getD []).length =
        ((skill.parameters.getD []).filter
            (fun p => p.required && !(hasKey params p.name))).length +
        ((skill.parameters.getD []).filter
            (fun p => hasKey params p.name &&
              !(validateParameterValue p (getVal params p.name)).1)).length +
        ((params.map (fun q => q.1)).filter
            (fun k => !(((skill.parameters.getD []).map (fun p => p.name)).contains k))).length
      ∧ ((validateParameters r sid params).valid = true ↔
          (validateParameters r sid params).errors = none))
    ∧ ((validateParameters demoRegistry3 "demo" [("z", JSValue.num 1)]).errors.getD []).length = 3
    ∧ (validateParameters demoRegistry3 "demo" [("z", JSValue.num 1)]).valid = false := by
  refine ⟨?_, ?_, by decide, by decide⟩
  · intro r sid params h
    exact validateParameters_none h
  · intro r sid skill params h
    rw [validateParameters_some h]
    constructor
    · by_cases he : (allErrs skill params).isEmpty = true
      · rw [if_pos he]
        have hlen : (allErrs skill params).length = 0 := by
          rw [List.isEmpty_iff] at he
          rw [he]
          rfl
        unfold allErrs at hlen
        rw [List.length_append, List.length_map] at hlen
        rw [paramErrs_length_fold] at hlen
        simp only [Option.getD_none, List.length_nil]
        omega
      · rw [if_neg he]
        show (allErrs skill params).length = _
        unfold allErrs
        rw [List.length_append, List.length_map, paramErrs_length_fold]
    · by_cases he : (allErrs skill params).isEmpty = true
      · rw [if_pos he]
        simp [he]
      · rw [if_neg he]
        simp [he]

theorem c4_validate_parameters_exhaustive_witness :
    validateParameters demoRegistry3 "nope" [] =
      { valid := false, errors := some ["Skill not found: " ++ "nope"] } ∧
    ((validateParameters demoRegistry3 "demo" [("z", JSValue.num 1)]).errors.getD []).length =
      ((demoSkillAB.parameters.getD []).filter
          (fun p => p.required && !(hasKey [("z", JSValue.num 1)] p.name))).length +
      ((demoSkillAB.parameters.getD []).filter
          (fun p => hasKey [("z", JSValue.num 1)] p.name &&
            !(validateParameterValue p (getVal [("z", JSValue.num 1)] p.name)).1)).length +
      (([("z", JSValue.num 1)].map (fun q => q.1)).filter
          (fun k => !(((demoSkillAB.parameters.getD []).map (fun p => p.name)).contains
            k))).length ∧
    ((validateParameters demoRegistry3 "demo" [("z", JSValue.num 1)]).valid = true ↔
      (validateParameters demoRegistry3 "demo" [("z", JSValue.num 1)]).errors = none) := by
  refine ⟨?_, ?_, ?_⟩
  · exact c4_validate_parameters_exhaustive.1 demoRegistry3 "nope" [] (by decide)
  · exact (c4_validate_parameters_exhaustive.2.1 demoRegistry3 "demo" demoSkillAB
      [("z", JSValue.num 1)] (by decide)).1
  · exact (c4_validate_parameters_exhaustive.2.1 demoRegistry3 "demo" demoSkillAB
      [("z", JSValue.num 1)] (by decide)).2

lemma sync_eq_heads {st : GitState} {remoteHead : String}
    (hgit : st.hasGit = true) (heq : st.localHead = remoteHead) :
    sync st remoteHead true =
      { result := upToDateResult, state := { st with originHead := remoteHead }, eff := { fetches := 1 } } := by
  unfold sync syncGitPresent
  rw [hgit]
  simp [heq]

/-- C8: whenever the working copy exists and its local head revision
equals the remote head revision, `sync` reports success with
`updated = false` and `skillsChanged = false`, performs no hard reset,
leaves the working copy head unchanged, and a second call under the same
unchanged remote again reports `updated = false` with no reset. -/
theorem c8_sync_noop (st : GitState) (remoteHead : String)
    (hgit : st.hasGit = true) (heq : st.localHead = remoteHead) :
    (sync st remoteHead true).result.success = true
    ∧ (sync st remoteHead true).result.updated = false
    ∧ (sync st remoteHead true).result.skillsChanged = some false
    ∧ (sync st remoteHead true).eff.resets = 0
    ∧ (sync st remoteHead true).state.localHead = st.localHead
    ∧ (sync (sync st remoteHead true).state remoteHead true).result.updated = false
    ∧ (sync (sync st remoteHead true).state remoteHead true).eff.resets = 0 := by
  have hout := sync_eq_heads hgit heq
  have hout2 : sync { st with originHead := remoteHead } remoteHead true =
      { result := upToDateResult, state := { st with originHead := remoteHead }, eff := { fetches := 1 } } :=
    sync_eq_heads hgit heq
  rw [hout]
  exact ⟨rfl, rfl, rfl, rfl, rfl, by rw [hout2]; try rfl, by rw [hout2]; try rfl⟩

theorem c8_sync_noop_witness :
    (sync { hasGit := true, localHead := "r1", originHead := "r1" } "r1" true).result.updated = false
    ∧ (sync { hasGit := true, localHead := "r1", originHead := "r1" } "r1" true).eff.resets = 0
    ∧ (sync (sync { hasGit := true, localHead := "r1", originHead := "r1" } "r1" true).state
        "r1" true).result.updated = false
    ∧ (sync (sync { hasGit := true, localHead := "r1", originHead := "r1" } "r1" true).state
        "r1" true).eff.resets = 0 := by
  have h := c8_sync_noop { hasGit := true, localHead := "r1", originHead := "r1" } "r1"
    (by decide) (by decide)
  exact ⟨h.2.1, h.2.2.2.1, h.2.2.2.2.2.1, h.2.2.2.2.2.2⟩

lemma addEff_zero (a : SyncEff) : addEff a {} = a := by
  cases a with
  | mk f r c => simp [addEff]

/-- C3 counterexample: a scheduled tick arriving while the previous cycle
is still in progress (in-progress flag set) still performs the interval
body's own sync: at the concrete busy state with a pending upstream
change the tick performs one fetch and one hard reset, so the claim that
such a tick performs no sync at all is false. -/
theorem c3_tick_counterexample :
    (autoSyncTick busySysState "b" true [] 0).2.fetches = 1
    ∧ (autoSyncTick busySysState "b" true [] 0).2.resets = 1
    ∧ ¬ (∀ (st : SysState) (remoteHead : String) (netOk : Bool)
          (parsed : List Skill) (now : Int), st.isSyncing = true →
          (autoSyncTick st remoteHead netOk parsed now).2.fetches = 0
          ∧ (autoSyncTick st remoteHead netOk parsed now).2.resets = 0) := by
  refine ⟨by decide, by decide, ?_⟩
  intro h
  have h2 := (h busySysState "b" true [] 0 rfl).1
  rw [show (autoSyncTick busySysState "b" true [] 0).2.fetches = 1 by decide] at h2
  exact absurd h2 (by decide)

/-- C3 amended: the in-progress flag guards only the refresh callback.  A
tick arriving while the flag is set still performs the interval body's
fetch-and-compare sync (including a hard reset when the heads differ),
but the callback body is dropped entirely, not queued: the tick performs
no second sync, no registry mutation, and leaves the flag set. -/
theorem c3_tick_amended (st : SysState) (remoteHead : String) (netOk : Bool)
    (parsed : List Skill) (now : Int) (h : st.isSyncing = true) :
    (autoSyncTick st remoteHead netOk parsed now).2 = (sync st.git remoteHead netOk).eff
    ∧ (autoSyncTick st remoteHead netOk parsed now).1.registry = st.registry
    ∧ (autoSyncTick st remoteHead netOk parsed now).1.isSyncing = true
    ∧ (autoSyncTick st remoteHead netOk parsed now).1.git
        = (sync st.git remoteHead netOk).state := by
  have hcb : refreshCallback { st with git := (sync st.git remoteHead netOk).state }
      remoteHead netOk parsed now =
      ({ st with git := (sync st.git remoteHead netOk).state }, ({} : SyncEff)) := by
    unfold refreshCallback
    rw [show ({ st with git := (sync st.git remoteHead netOk).state } : SysState).isSyncing
      = true from h]
    rw [if_pos rfl]
  unfold autoSyncTick
  by_cases hc : ((sync st.git remoteHead netOk).result.success
      && (sync st.git remoteHead netOk).result.updated) = true
  · rw [if_pos hc, hcb, addEff_zero]
    exact ⟨rfl, rfl, h, rfl⟩
  · rw [if_neg hc]
    exact ⟨rfl, rfl, h, rfl⟩

theorem c3_tick_amended_witness :
    (autoSyncTick busySysState "b" true [] 0).2 = (sync busySysState.git "b" true).eff
    ∧ (autoSyncTick busySysState "b" true [] 0).1.registry = busySysState.registry
    ∧ (autoSyncTick busySysState "b" true [] 0).1.isSyncing = true := by
  have h := c3_tick_amended busySysState "b" true [] 0 (by decide)
  exact ⟨h.1, h.2.1, h.2.2.1⟩

example : substituteParameters
    ['H','e','l','l','o',',',' ','{','{','n','a','m','e','}','}','!']
    [(['n','a','m','e'], ['W','o','r','l','d'])] =
    ['H','e','l','l','o',',',' ','W','o','r','l','d','!'] := by decide

example : substituteParameters ['$','{','x','}','-','$','{','x','}'] [(['x'], ['1'])] =
    ['1','-','1'] := by decide

example : substituteParameters ['{','{','a','}','}']
    [(['a'], ['{','{','b','}','}']), (['b'], ['1'])] = ['1'] := by decide

example : specSubstitute ['{','{','a','}','}']
    [(['a'], ['{','{','b','}','}']), (['b'], ['1'])] = ['{','{','b','}','}'] := by decide

lemma stripP_length :
    ∀ (p s r : List Char), stripP p s = some r → s.length = p.length + r.length := by
  intro p
  induction p with
  | nil =>
    intro s r h
    simp [stripP] at h
    rw [h]
    simp
  | cons a ps ih =>
    intro s r h
    cases s with
    | nil => simp [stripP] at h
    | cons c cs =>
      by_cases hac : a = c
      · rw [show stripP (a :: ps) (c :: cs) = stripP ps cs by simp [stripP, hac]] at h
        have := ih cs r h
        simp [this]
        omega
      · simp [stripP, hac] at h

lemma stripP_append : ∀ (p r : List Char), stripP p (p ++ r) = some r := by
  intro p
  induction p with
  | nil => intro r; rfl
  | cons a ps ih => intro r; simp [stripP, ih]

lemma stripP_cons_ne {a c : Char} (p t : List Char) (h : a ≠ c) :
    stripP (a :: p) (c :: t) = none := by
  simp [stripP, h]

lemma length_dropWhile_le' (p : Char → Bool) (l : List Char) :
    (l.dropWhile p).length ≤ l.length := by
  induction l with
  | nil => simp [List.dropWhile]
  | cons a t ih =>
    by_cases hp : p a = true
    · rw [show (a :: t).dropWhile p = t.dropWhile p by simp [List.dropWhile, hp]]
      simp only [List.length_cons]
      omega
    · rw [show (a :: t).dropWhile p = a :: t by simp [List.dropWhile, hp]]

lemma matchPH_length {opn cls key s r : List Char}
    (h : matchPH opn cls key s = some r) (ho : opn ≠ []) : r.length < s.length := by
  unfold matchPH at h
  cases h1 : stripP opn s with
  | none => rw [h1] at h; simp at h
  | some s1 =>
    rw [h1] at h
    simp only [Option.some_bind] at h
    cases h3 : stripP key (s1.dropWhile isWSChar) with
    | none => rw [h3] at h; simp at h
    | some s3 =>
      rw [h3] at h
      simp only [Option.some_bind] at h
      have l1 := stripP_length opn s s1 h1
      have l2 := length_dropWhile_le' isWSChar s1
      have l3 := stripP_length key (s1.dropWhile isWSChar) s3 h3
      have l4 := length_dropWhile_le' isWSChar s3
      have l5 := stripP_length cls (s3.dropWhile isWSChar) r h
      have ho2 : 0 < opn.length := by
        cases opn with
        | nil => exact absurd rfl ho
        | cons _ _ => simp
      omega

lemma scanSub_irrel (f : List Char → Option (List Char × List Char))
    (hdec : ∀ s p, f s = some p → p.2.length < s.length) :
    ∀ (n m : Nat) (s : List Char), s.length ≤ n → s.length ≤ m →
      scanSub f n s = scanSub f m s := by
  intro n
  induction n with
  | zero =>
    intro m s hn _
    have : s = [] := by
      cases s with
      | nil => rfl
      | cons c cs => simp at hn
    rw [this]
    cases m <;> rfl
  | succ n ih =>
    intro m s hn hm
    cases s with
    | nil => cases m <;> rfl
    | cons c cs =>
      cases m with
      | zero => simp at hm
      | succ m2 =>
        show (match f (c :: cs) with
          | some (v, rest) => v ++ scanSub f n rest
          | none => c :: scanSub f n cs) =
          (match f (c :: cs) with
          | some (v, rest) => v ++ scanSub f m2 rest
          | none => c :: scanSub f m2 cs)
        cases hf : f (c :: cs) with
        | some p =>
          cases p with
          | mk v rest =>
            have hr := hdec _ _ hf
            simp only [List.length_cons] at hr hn hm
            show v ++ scanSub f n rest = v ++ scanSub f m2 rest
            rw [ih m2 rest (by omega) (by omega)]
        | none =>
          simp only [List.length_cons] at hn hm
          show c :: scanSub f n cs = c :: scanSub f m2 cs
          rw [ih m2 cs (by omega) (by omega)]

lemma scanSubC_cons_match (f : List Char → Option (List Char × List Char))
    (hdec : ∀ s p, f s = some p → p.2.length < s.length)
    {c : Char} {cs v rest : List Char} (h : f (c :: cs) = some (v, rest)) :
    scanSubC f (c :: cs) = v ++ scanSubC f rest := by
  unfold scanSubC
  show (match f (c :: cs) with
    | some (v, rest) => v ++ scanSub f cs.length rest
    | none => c :: scanSub f cs.length cs) = _
  rw [h]
  have hr := hdec _ _ h
  simp only [List.length_cons] at hr
  show v ++ scanSub f cs.length rest = v ++ scanSub f rest.length rest
  rw [scanSub_irrel f hdec cs.length rest.length rest (by omega) (by omega)]

lemma scanSubC_cons_nomatch (f : List Char → Option (List Char × List Char))
    {c : Char} {cs : List Char} (h : f (c :: cs) = none) :
    scanSubC f (c :: cs) = c :: scanSubC f cs := by
  unfold scanSubC
  show (match f (c :: cs) with
    | some (v, rest) => v ++ scanSub f cs.length rest
    | none => c :: scanSub f cs.length cs) = _
  rw [h]

lemma scanSubC_append (f : List Char → Option (List Char × List Char))
    (hdec : ∀ s p, f s = some p → p.2.length < s.length) :
    ∀ (s x : List Char), (∀ s2, s2 ≠ [] → (∃ s1, s = s1 ++ s2) → f (s2 ++ x) = none) →
      scanSubC f (s ++ x) = s ++ scanSubC f x := by
  intro s
  induction s with
  | nil => intro x _; rfl
  | cons c cs ih =>
    intro x hfail
    have h0 : f ((c :: cs) ++ x) = none :=
      hfail (c :: cs) (by simp) ⟨[], rfl⟩
    rw [show (c :: cs) ++ x = c :: (cs ++ x) from rfl] at h0 ⊢
    rw [scanSubC_cons_nomatch f h0]
    rw [ih x (fun s2 hne hex => hfail s2 hne (by
      obtain ⟨s1, hs1⟩ := hex
      exact ⟨c :: s1, by rw [hs1]; rfl⟩))]
    rfl

lemma scanSubC_append_litFree (f : List Char → Option (List Char × List Char))
    (hdec : ∀ s p, f s = some p → p.2.length < s.length)
    (hfh : ∀ (c : Char) (t : List Char), c ≠ '{' → c ≠ '$' → f (c :: t) = none)
    {s x : List Char} (hs : litFree s = true) :
    scanSubC f (s ++ x) = s ++ scanSubC f x := by
  apply scanSubC_append f hdec
  intro s2 hne hex
  cases s2 with
  | nil => exact absurd rfl hne
  | cons c t =>
    obtain ⟨s1, hs1⟩ := hex
    have hc : c ∈ s := by
      rw [hs1]
      simp
    rw [litFree, List.all_eq_true] at hs
    have := hs c hc
    simp at this
    exact hfh c (t ++ x) this.1 this.2

lemma wordChar_not_ws {c : Char} (h : isWordChar c = true) : isWSChar c = false := by
  cases hws : isWSChar c with
  | false => rfl
  | true =>
    exfalso
    simp [isWSChar] at hws
    have h6 : c = ' ' ∨ c = '\t' ∨ c = '\n' ∨ c = '\x0d' ∨ c = Char.ofNat 11
        ∨ c = Char.ofNat 12 := by tauto
    rcases h6 with h1 | h1 | h1 | h1 | h1 | h1 <;>
      (subst h1; exact absurd h (by decide))

lemma wordChar_ne_open {c : Char} (h : isWordChar c = true) : c ≠ '{' ∧ c ≠ '$' := by
  constructor
  · intro he; subst he; exact absurd h (by decide)
  · intro he; subst he; exact absurd h (by decide)

lemma wsChar_ne_open {c : Char} (h : isWSChar c = true) : c ≠ '{' ∧ c ≠ '$' := by
  constructor
  · intro he; subst he; exact absurd h (by decide)
  · intro he; subst he; exact absurd h (by decide)

lemma dropWhile_append_all {p : Char → Bool} :
    ∀ {w y : List Char}, (∀ c ∈ w, p c = true) → (w ++ y).dropWhile p = y.dropWhile p := by
  intro w
  induction w with
  | nil => intro y _; rfl
  | cons a t ih =>
    intro y h
    rw [List.cons_append,
      show ((a :: (t ++ y)).dropWhile p) = (t ++ y).dropWhile p by
        simp [List.dropWhile, h a (by simp)]]
    exact ih (fun c hc => h c (by simp [hc]))

lemma dropWhile_cons_neg {p : Char → Bool} {c : Char} {y : List Char} (h : p c = false) :
    (c :: y).dropWhile p = c :: y := by
  simp [List.dropWhile, h]

lemma key_then_close (f : PForm) :
    ∀ (k key : List Char), k.all isWordChar = true → key.all isWordChar = true →
      ∀ (ws2 x : List Char), ws2.all isWSChar = true →
      ((stripP k (key ++ (ws2 ++ (phCloseOf f ++ x)))).bind
        (fun s3 => stripP (phCloseOf f) (s3.dropWhile isWSChar))) =
        (if k = key then some x else none) := by
  have hcls : ∃ clsT, phCloseOf f = '}' :: clsT := by
    cases f with
    | curly => exact ⟨['}'], rfl⟩
    | dollar => exact ⟨[], rfl⟩
  obtain ⟨clsT, hclsT⟩ := hcls
  intro k
  induction k with
  | nil =>
    intro key hk hkey ws2 x hws
    cases key with
    | nil =>
      rw [if_pos rfl]
      show (some ([] ++ (ws2 ++ (phCloseOf f ++ x)))).bind
        (fun s3 => stripP (phCloseOf f) (s3.dropWhile isWSChar)) = some x
      rw [Option.some_bind, List.nil_append]
      rw [dropWhile_append_all (fun c hc => (List.all_eq_true.mp hws) c hc)]
      rw [hclsT, List.cons_append]
      rw [show List.dropWhile isWSChar ('}' :: (clsT ++ x)) = '}' :: (clsT ++ x) from
        dropWhile_cons_neg (by decide)]
      exact stripP_append ('}' :: clsT) x
    | cons b key2 =>
      rw [if_neg (by simp)]
      show (some ((b :: key2) ++ (ws2 ++ (phCloseOf f ++ x)))).bind
        (fun s3 => stripP (phCloseOf f) (s3.dropWhile isWSChar)) = none
      rw [Option.some_bind, List.cons_append]
      have hb : isWordChar b = true := (List.all_eq_true.mp hkey) b (by simp)
      rw [dropWhile_cons_neg (wordChar_not_ws hb)]
      rw [hclsT]
      rw [stripP_cons_ne _ _ (by
        intro he
        rw [← he] at hb
        exact absurd hb (by decide))]
  | cons a k2 ihk =>
    intro key hk hkey ws2 x hws
    have ha : isWordChar a = true := (List.all_eq_true.mp hk) a (by simp)
    cases key with
    | nil =>
      rw [if_neg (by simp)]
      show (stripP (a :: k2) ([] ++ (ws2 ++ (phCloseOf f ++ x)))).bind
        (fun s3 => stripP (phCloseOf f) (s3.dropWhile isWSChar)) = none
      rw [List.nil_append]
      cases ws2 with
      | nil =>
        rw [List.nil_append, hclsT, List.cons_append]
        rw [show stripP (a :: k2) ('}' :: (clsT ++ x)) = none from
          stripP_cons_ne _ _ (by
            intro he
            rw [he] at ha
            exact absurd ha (by decide))]
        rfl
      | cons w ws2t =>
        have hw : isWSChar w = true := (List.all_eq_true.mp hws) w (by simp)
        rw [List.cons_append]
        rw [show stripP (a :: k2) (w :: (ws2t ++ (phCloseOf f ++ x))) = none from
          stripP_cons_ne _ _ (by
            intro he
            rw [he] at ha
            rw [wordChar_not_ws ha] at hw
            exact Bool.noConfusion hw)]
        rfl
    | cons b key2 =>
      by_cases hab : a = b
      · subst hab
        rw [List.cons_append]
        rw [show stripP (a :: k2) (a :: (key2 ++ (ws2 ++ (phCloseOf f ++ x)))) =
            stripP k2 (key2 ++ (ws2 ++ (phCloseOf f ++ x))) by simp [stripP]]
        rw [ihk key2 (by
            rw [List.all_eq_true] at hk ⊢
            exact fun c hc => hk c (by simp [hc]))
          (by
            rw [List.all_eq_true] at hkey ⊢
            exact fun c hc => hkey c (by simp [hc]))
          ws2 x hws]
        by_cases h2 : k2 = key2
        · rw [if_pos h2, if_pos (by rw [h2])]
        · rw [if_neg h2, if_neg (by simp [h2])]
      · rw [List.cons_append, stripP_cons_ne _ _ hab]
        rw [if_neg (by simp [hab])]
        rfl

lemma neq_form_none (g h : PForm) (k Y : List Char) (hne : g ≠ h) :
    matchPH (phOpenOf g) (phCloseOf g) k (phOpenOf h ++ Y) = none := by
  cases g with
  | curly =>
    cases h with
    | curly => exact absurd rfl hne
    | dollar =>
      show matchPH ['{', '{'] ['}', '}'] k ('$' :: ('{' :: Y)) = none
      unfold matchPH
      rw [stripP_cons_ne _ _ (by decide)]
      rfl
  | dollar =>
    cases h with
    | curly =>
      show matchPH ['$', '{'] ['}'] k ('{' :: ('{' :: Y)) = none
      unfold matchPH
      rw [stripP_cons_ne _ _ (by decide)]
      rfl
    | dollar => exact absurd rfl hne

lemma segWF_ph_parts {p : PHSeg} (hwf : segWF (Seg.ph p) = true) :
    p.ws1.all isWSChar = true ∧ p.key ≠ [] ∧ p.key.all isWordChar = true
    ∧ p.ws2.all isWSChar = true := by
  rw [show segWF (Seg.ph p) = (wsList p.ws1 && wordList p.key && wsList p.ws2) from rfl] at hwf
  rcases Bool.and_eq_true_iff.mp hwf with ⟨h12, h3⟩
  rcases Bool.and_eq_true_iff.mp h12 with ⟨h1, h2⟩
  rw [wordList] at h2
  rcases Bool.and_eq_true_iff.mp h2 with ⟨h2a, h2b⟩
  refine ⟨h1, ?_, h2b, h3⟩
  intro he
  rw [he] at h2a
  exact Bool.noConfusion h2a

lemma matchPH_render (f : PForm) (k : List Char) (p : PHSeg) (x : List Char)
    (hk : wordList k = true) (hwf : segWF (Seg.ph p) = true) :
    matchPH (phOpenOf f) (phCloseOf f) k (renderPH p ++ x) =
      (if f = p.form ∧ k = p.key then some x else none) := by
  obtain ⟨hws1, hkne, hkw, hws2⟩ := segWF_ph_parts hwf
  have hr : renderPH p ++ x =
      phOpenOf p.form ++ (p.ws1 ++ (p.key ++ (p.ws2 ++ (phCloseOf p.form ++ x)))) := by
    unfold renderPH
    simp [List.append_assoc]
  rw [hr]
  by_cases hf : f = p.form
  · subst hf
    unfold matchPH
    rw [stripP_append, Option.some_bind]
    rw [dropWhile_append_all (fun c hc => (List.all_eq_true.mp hws1) c hc)]
    cases hkey0 : p.key with
    | nil => exact absurd hkey0 hkne
    | cons kh kt =>
      have hkh : isWordChar kh = true := by
        rw [hkey0] at hkw
        exact (List.all_eq_true.mp hkw) kh (by simp)
      rw [List.cons_append]
      rw [show List.dropWhile isWSChar (kh :: (kt ++ (p.ws2 ++ (phCloseOf p.form ++ x)))) =
          kh :: (kt ++ (p.ws2 ++ (phCloseOf p.form ++ x))) from
        dropWhile_cons_neg (wordChar_not_ws hkh)]
      rw [← List.cons_append]
      rw [key_then_close p.form k (kh :: kt)
        (by rw [wordList] at hk; exact (Bool.and_eq_true_iff.mp hk).2)
        (by rw [← hkey0]; exact hkw) p.ws2 x hws2]
      by_cases hkk : k = kh :: kt
      · rw [if_pos hkk, if_pos ⟨rfl, hkk⟩]
      · rw [if_neg hkk, if_neg (by
          intro hcon
          exact hkk hcon.2)]
  · rw [if_neg (fun hcon => hf hcon.1)]
    exact neq_form_none f p.form k _ hf

lemma litFree_append {a b : List Char} (ha : litFree a = true) (hb : litFree b = true) :
    litFree (a ++ b) = true := by
  rw [litFree] at *
  rw [List.all_append, ha, hb]
  rfl

lemma litFree_of_ws {w : List Char} (h : w.all isWSChar = true) : litFree w = true := by
  rw [litFree, List.all_eq_true]
  intro c hc
  have := wsChar_ne_open ((List.all_eq_true.mp h) c hc)
  simp [this.1, this.2]

lemma litFree_of_word {w : List Char} (h : w.all isWordChar = true) : litFree w = true := by
  rw [litFree, List.all_eq_true]
  intro c hc
  have := wordChar_ne_open ((List.all_eq_true.mp h) c hc)
  simp [this.1, this.2]

lemma litFree_close (f : PForm) : litFree (phCloseOf f) = true := by
  cases f <;> decide

lemma renderPH_parts (p : PHSeg) (hwf : segWF (Seg.ph p) = true) :
    ∃ c0 d T2, renderPH p = c0 :: '{' :: (d :: T2)
      ∧ (c0 = '{' ∨ c0 = '$') ∧ d ≠ '{' ∧ litFree (d :: T2) = true := by
  obtain ⟨hws1, hkne, hkw, hws2⟩ := segWF_ph_parts hwf
  have hT : litFree (p.ws1 ++ (p.key ++ (p.ws2 ++ phCloseOf p.form))) = true :=
    litFree_append (litFree_of_ws hws1)
      (litFree_append (litFree_of_word hkw)
        (litFree_append (litFree_of_ws hws2) (litFree_close p.form)))
  have hre : renderPH p =
      phOpenOf p.form ++ (p.ws1 ++ (p.key ++ (p.ws2 ++ phCloseOf p.form))) := by
    unfold renderPH
    simp [List.append_assoc]
  have hTne : ∃ d T2, p.ws1 ++ (p.key ++ (p.ws2 ++ phCloseOf p.form)) = d :: T2
      ∧ d ≠ '{' := by
    cases hw1 : p.ws1 with
    | cons w ws1t =>
      exact ⟨w, ws1t ++ (p.key ++ (p.ws2 ++ phCloseOf p.form)), by simp, by
        have hw : isWSChar w = true := by
          rw [hw1] at hws1
          exact (List.all_eq_true.mp hws1) w (by simp)
        exact (wsChar_ne_open hw).1⟩
    | nil =>
      cases hk0 : p.key with
      | nil => exact absurd hk0 hkne
      | cons kh kt =>
        refine ⟨kh, kt ++ (p.ws2 ++ phCloseOf p.form), by simp, ?_⟩
        have hkh : isWordChar kh = true := by
          rw [hk0] at hkw
          exact (List.all_eq_true.mp hkw) kh (by simp)
        exact (wordChar_ne_open hkh).1
  obtain ⟨d, T2, hdT, hd⟩ := hTne
  cases hpf : p.form with
  | curly =>
    refine ⟨'{', d, T2, ?_, Or.inl rfl, hd, by rw [← hdT]; exact hT⟩
    rw [hre, hdT, hpf]
    rfl
  | dollar =>
    refine ⟨'$', d, T2, ?_, Or.inr rfl, hd, by rw [← hdT]; exact hT⟩
    rw [hre, hdT, hpf]
    rfl

lemma renderPH_append_ne {p : PHSeg} (hwf : segWF (Seg.ph p) = true) (x : List Char) :
    renderPH p ++ x ≠ [] := by
  obtain ⟨c0, d, T2, hre, _, _, _⟩ := renderPH_parts p hwf
  rw [hre]
  simp

lemma scanSubC_match_ne (f : List Char → Option (List Char × List Char))
    (hdec : ∀ s p, f s = some p → p.2.length < s.length)
    {s v rest : List Char} (hne : s ≠ []) (h : f s = some (v, rest)) :
    scanSubC f s = v ++ scanSubC f rest := by
  cases s with
  | nil => exact absurd rfl hne
  | cons c cs => exact scanSubC_cons_match f hdec h

lemma scanSubC_skip_ph (f : List Char → Option (List Char × List Char))
    (hdec : ∀ s p, f s = some p → p.2.length < s.length)
    (hfh : ∀ (c : Char) (t : List Char), c ≠ '{' → c ≠ '$' → f (c :: t) = none)
    (hbrace : ∀ (d : Char) (u : List Char), d ≠ '{' → f ('{' :: (d :: u)) = none)
    (p : PHSeg) (hwf : segWF (Seg.ph p) = true)
    (Y : List Char) (h0 : f (renderPH p ++ Y) = none) :
    scanSubC f (renderPH p ++ Y) = renderPH p ++ scanSubC f Y := by
  obtain ⟨c0, d, T2, hre, hc0, hd, hlf⟩ := renderPH_parts p hwf
  rw [hre] at h0 ⊢
  rw [List.cons_append, List.cons_append, List.cons_append] at h0 ⊢
  rw [scanSubC_cons_nomatch f h0]
  rw [scanSubC_cons_nomatch f (hbrace d (T2 ++ Y) hd)]
  have happ : scanSubC f ((d :: T2) ++ Y) = (d :: T2) ++ scanSubC f Y :=
    scanSubC_append_litFree f hdec hfh hlf
  rw [show d :: (T2 ++ Y) = (d :: T2) ++ Y from rfl, happ]
  rfl

lemma replacePH_eq (opn cls key v s : List Char) :
    replacePH opn cls key v s = scanSubC (keyMatcher opn cls key v) s := rfl

lemma keyMatcher_dec {opn cls key v : List Char} (ho : opn ≠ []) :
    ∀ s p, keyMatcher opn cls key v s = some p → p.2.length < s.length := by
  intro s p h
  unfold keyMatcher at h
  cases hm : matchPH opn cls key s with
  | none => rw [hm] at h; simp at h
  | some rest =>
    rw [hm] at h
    simp at h
    rw [← h]
    exact matchPH_length hm ho

lemma keyMatcher_hfh {opn cls key v : List Char}
    (ho : opn = curlyOpen ∨ opn = dollarOpen) :
    ∀ (c : Char) (t : List Char), c ≠ '{' → c ≠ '$' →
      keyMatcher opn cls key v (c :: t) = none := by
  intro c t h1 h2
  unfold keyMatcher matchPH
  rcases ho with ho | ho <;> rw [ho]
  · rw [show curlyOpen = '{' :: ['{'] from rfl, stripP_cons_ne _ _ (Ne.symm h1)]
    rfl
  · rw [show dollarOpen = '$' :: ['{'] from rfl, stripP_cons_ne _ _ (Ne.symm h2)]
    rfl

lemma keyMatcher_hbrace {opn cls key v : List Char}
    (ho : opn = curlyOpen ∨ opn = dollarOpen) :
    ∀ (d : Char) (u : List Char), d ≠ '{' →
      keyMatcher opn cls key v ('{' :: (d :: u)) = none := by
  intro d u hd
  unfold keyMatcher matchPH
  rcases ho with ho | ho <;> rw [ho]
  · rw [show stripP curlyOpen ('{' :: (d :: u)) = stripP ['{'] (d :: u) by
      simp [curlyOpen, stripP]]
    rw [stripP_cons_ne _ _ (Ne.symm hd)]
    rfl
  · rw [show dollarOpen = '$' :: ['{'] from rfl, stripP_cons_ne _ _ (by decide)]
    rfl

lemma findMatch_dec {m : List (List Char × List Char)} :
    ∀ s p, findMatch m s = some p → p.2.length < s.length := by
  induction m with
  | nil => intro s p h; simp [findMatch] at h
  | cons kv rest ih =>
    intro s p h
    rw [show findMatch (kv :: rest) s =
        (match tryEntry kv s with
        | some q => some q
        | none => findMatch rest s) from rfl] at h
    cases ht : tryEntry kv s with
    | some q =>
      rw [ht] at h
      simp at h
      unfold tryEntry at ht
      cases h1 : matchPH curlyOpen curlyClose kv.1 s with
      | some r =>
        rw [h1] at ht
        simp at ht
        rw [← h, ← ht]
        exact matchPH_length h1 (by decide)
      | none =>
        rw [h1] at ht
        cases h2 : matchPH dollarOpen dollarClose kv.1 s with
        | some r =>
          rw [h2] at ht
          simp at ht
          rw [← h, ← ht]
          exact matchPH_length h2 (by decide)
        | none =>
          rw [h2] at ht
          simp at ht
    | none =>
      rw [ht] at h
      exact ih s p h

lemma findMatch_hfh {m : List (List Char × List Char)} :
    ∀ (c : Char) (t : List Char), c ≠ '{' → c ≠ '$' → findMatch m (c :: t) = none := by
  induction m with
  | nil => intro c t _ _; rfl
  | cons kv rest ih =>
    intro c t h1 h2
    rw [show findMatch (kv :: rest) (c :: t) =
        (match tryEntry kv (c :: t) with
        | some q => some q
        | none => findMatch rest (c :: t)) from rfl]
    rw [show tryEntry kv (c :: t) =
        (match keyMatcher curlyOpen curlyClose kv.1 kv.2 (c :: t) with
        | some q => some q
        | none =>
          match keyMatcher dollarOpen dollarClose kv.1 kv.2 (c :: t) with
          | some q => some q
          | none => none) by
      unfold tryEntry keyMatcher
      cases matchPH curlyOpen curlyClose kv.1 (c :: t) <;>
        cases matchPH dollarOpen dollarClose kv.1 (c :: t) <;> rfl]
    rw [keyMatcher_hfh (Or.inl rfl) c t h1 h2, keyMatcher_hfh (Or.inr rfl) c t h1 h2]
    exact ih c t h1 h2

lemma findMatch_hbrace {m : List (List Char × List Char)} :
    ∀ (d : Char) (u : List Char), d ≠ '{' → findMatch m ('{' :: (d :: u)) = none := by
  induction m with
  | nil => intro d u _; rfl
  | cons kv rest ih =>
    intro d u hd
    rw [show findMatch (kv :: rest) ('{' :: (d :: u)) =
        (match tryEntry kv ('{' :: (d :: u)) with
        | some q => some q
        | none => findMatch rest ('{' :: (d :: u))) from rfl]
    rw [show tryEntry kv ('{' :: (d :: u)) =
        (match keyMatcher curlyOpen curlyClose kv.1 kv.2 ('{' :: (d :: u)) with
        | some q => some q
        | none =>
          match keyMatcher dollarOpen dollarClose kv.1 kv.2 ('{' :: (d :: u)) with
          | some q => some q
          | none => none) by
      unfold tryEntry keyMatcher
      cases matchPH curlyOpen curlyClose kv.1 ('{' :: (d :: u)) <;>
        cases matchPH dollarOpen dollarClose kv.1 ('{' :: (d :: u)) <;> rfl]
    rw [keyMatcher_hbrace (Or.inl rfl) d u hd, keyMatcher_hbrace (Or.inr rfl) d u hd]
    exact ih d u hd

lemma renderT_cons (sg : Seg) (rest : List Seg) :
    renderT (sg :: rest) = renderSeg sg ++ renderT rest := by
  unfold renderT
  rw [List.map_cons, List.flatten_cons]

lemma tmplWF_cons {sg : Seg} {rest : List Seg} (h : tmplWF (sg :: rest) = true) :
    segWF sg = true ∧ tmplWF rest = true := by
  rw [tmplWF, List.all_cons] at h
  exact Bool.and_eq_true_iff.mp h

lemma keyPass_on_template (fm : PForm) (k v : List Char) (hk : wordList k = true) :
    ∀ (t : List Seg), tmplWF t = true →
      scanSubC (keyMatcher (phOpenOf fm) (phCloseOf fm) k v) (renderT t) =
        renderT (t.map (substSegForm fm k v)) := by
  have hone : phOpenOf fm ≠ [] := by cases fm <;> decide
  have ho : phOpenOf fm = curlyOpen ∨ phOpenOf fm = dollarOpen := by
    cases fm with
    | curly => exact Or.inl rfl
    | dollar => exact Or.inr rfl
  intro t
  induction t with
  | nil => intro _; rfl
  | cons sg rest ih =>
    intro hwf
    obtain ⟨hsg, hrest⟩ := tmplWF_cons hwf
    rw [renderT_cons, List.map_cons, renderT_cons]
    cases sg with
    | lit s =>
      rw [show renderSeg (Seg.lit s) = s from rfl]
      rw [scanSubC_append_litFree _ (keyMatcher_dec hone) (keyMatcher_hfh ho)
        (show litFree s = true from hsg)]
      rw [ih hrest]
      rfl
    | ph p =>
      rw [show renderSeg (Seg.ph p) = renderPH p from rfl]
      by_cases hm : fm = p.form ∧ k = p.key
      · have hmt : keyMatcher (phOpenOf fm) (phCloseOf fm) k v (renderPH p ++ renderT rest) =
            some (v, renderT rest) := by
          unfold keyMatcher
          rw [matchPH_render fm k p (renderT rest) hk hsg, if_pos hm]
          rfl
        rw [scanSubC_match_ne _ (keyMatcher_dec hone)
          (renderPH_append_ne hsg (renderT rest)) hmt]
        rw [ih hrest]
        rw [show substSegForm fm k v (Seg.ph p) = Seg.lit v from by
          show (if fm = p.form ∧ k = p.key then Seg.lit v else Seg.ph p) = Seg.lit v
          rw [if_pos hm]]
        rfl
      · have h0 : keyMatcher (phOpenOf fm) (phCloseOf fm) k v (renderPH p ++ renderT rest) =
            none := by
          unfold keyMatcher
          rw [matchPH_render fm k p (renderT rest) hk hsg, if_neg hm]
          rfl
        rw [scanSubC_skip_ph _ (keyMatcher_dec hone) (keyMatcher_hfh ho)
          (keyMatcher_hbrace ho) p hsg (renderT rest) h0]
        rw [ih hrest]
        rw [show substSegForm fm k v (Seg.ph p) = Seg.ph p from by
          show (if fm = p.form ∧ k = p.key then Seg.lit v else Seg.ph p) = Seg.ph p
          rw [if_neg hm]]
        rfl

lemma segWF_substSegForm {f : PForm} {k v : List Char} (hv : litFree v = true)
    (sg : Seg) (h : segWF sg = true) : segWF (substSegForm f k v sg) = true := by
  cases sg with
  | lit s => exact h
  | ph p =>
    by_cases hc : f = p.form ∧ k = p.key
    · rw [show substSegForm f k v (Seg.ph p) =
          (if f = p.form ∧ k = p.key then Seg.lit v else Seg.ph p) from rfl, if_pos hc]
      exact hv
    · rw [show substSegForm f k v (Seg.ph p) =
          (if f = p.form ∧ k = p.key then Seg.lit v else Seg.ph p) from rfl, if_neg hc]
      exact h

lemma tmplWF_map_substSegForm {f : PForm} {k v : List Char} (hv : litFree v = true)
    (t : List Seg) (ht : tmplWF t = true) : tmplWF (t.map (substSegForm f k v)) = true := by
  rw [tmplWF, List.all_eq_true]
  intro sg2 hmem
  rw [List.mem_map] at hmem
  obtain ⟨sg, hsg, rfl⟩ := hmem
  exact segWF_substSegForm hv sg ((List.all_eq_true.mp ht) sg hsg)

lemma segWF_substSegKey {k v : List Char} (hv : litFree v = true)
    (sg : Seg) (h : segWF sg = true) : segWF (substSegKey k v sg) = true := by
  cases sg with
  | lit s => exact h
  | ph p =>
    by_cases hc : k = p.key
    · rw [show substSegKey k v (Seg.ph p) =
          (if k = p.key then Seg.lit v else Seg.ph p) from rfl, if_pos hc]
      exact hv
    · rw [show substSegKey k v (Seg.ph p) =
          (if k = p.key then Seg.lit v else Seg.ph p) from rfl, if_neg hc]
      exact h

lemma tmplWF_map_substSegKey {k v : List Char} (hv : litFree v = true)
    (t : List Seg) (ht : tmplWF t = true) : tmplWF (t.map (substSegKey k v)) = true := by
  rw [tmplWF, List.all_eq_true]
  intro sg2 hmem
  rw [List.mem_map] at hmem
  obtain ⟨sg, hsg, rfl⟩ := hmem
  exact segWF_substSegKey hv sg ((List.all_eq_true.mp ht) sg hsg)

lemma substSegForm_comp (k v : List Char) (sg : Seg) :
    substSegForm PForm.dollar k v (substSegForm PForm.curly k v sg) = substSegKey k v sg := by
  cases sg with
  | lit s => rfl
  | ph p =>
    by_cases hk2 : k = p.key
    · cases hpf : p.form with
      | curly => simp [substSegForm, substSegKey, hk2, hpf]
      | dollar => simp [substSegForm, substSegKey, hk2, hpf]
    · simp [substSegForm, substSegKey, hk2]

lemma substEntry_on_template (kv : List Char × List Char) (hk : wordList kv.1 = true)
    (hv : litFree kv.2 = true) (t : List Seg) (hwf : tmplWF t = true) :
    substEntry (renderT t) kv = renderT (t.map (substSegKey kv.1 kv.2)) := by
  have h1 : replacePH curlyOpen curlyClose kv.1 kv.2 (renderT t) =
      renderT (t.map (substSegForm PForm.curly kv.1 kv.2)) :=
    keyPass_on_template PForm.curly kv.1 kv.2 hk t hwf
  have hwf2 : tmplWF (t.map (substSegForm PForm.curly kv.1 kv.2)) = true :=
    tmplWF_map_substSegForm hv t hwf
  have h2 : replacePH dollarOpen dollarClose kv.1 kv.2
      (renderT (t.map (substSegForm PForm.curly kv.1 kv.2))) =
      renderT ((t.map (substSegForm PForm.curly kv.1 kv.2)).map
        (substSegForm PForm.dollar kv.1 kv.2)) :=
    keyPass_on_template PForm.dollar kv.1 kv.2 hk _ hwf2
  rw [show substEntry (renderT t) kv = replacePH dollarOpen dollarClose kv.1 kv.2
      (replacePH curlyOpen curlyClose kv.1 kv.2 (renderT t)) from rfl]
  rw [h1, h2, List.map_map]
  rw [show (substSegForm PForm.dollar kv.1 kv.2 ∘ substSegForm PForm.curly kv.1 kv.2)
      = substSegKey kv.1 kv.2 from funext (fun sg => substSegForm_comp kv.1 kv.2 sg)]

lemma findMatch_render (m : List (List Char × List Char)) (hm : mapWF m = true)
    (p : PHSeg) (hwfp : segWF (Seg.ph p) = true) (x : List Char) :
    findMatch m (renderPH p ++ x) = (lookupKV m p.key).map (fun v => (v, x)) := by
  induction m with
  | nil => rfl
  | cons kv rest ih =>
    have hm2 : mapWF rest = true ∧ wordList kv.1 = true := by
      rw [mapWF, List.all_cons] at hm
      rcases Bool.and_eq_true_iff.mp hm with ⟨h1, h2⟩
      exact ⟨h2, (Bool.and_eq_true_iff.mp h1).1⟩
    have hcur : matchPH curlyOpen curlyClose kv.1 (renderPH p ++ x) =
        (if PForm.curly = p.form ∧ kv.1 = p.key then some x else none) :=
      matchPH_render PForm.curly kv.1 p x hm2.2 hwfp
    have hdol : matchPH dollarOpen dollarClose kv.1 (renderPH p ++ x) =
        (if PForm.dollar = p.form ∧ kv.1 = p.key then some x else none) :=
      matchPH_render PForm.dollar kv.1 p x hm2.2 hwfp
    rw [show findMatch (kv :: rest) (renderPH p ++ x) =
        (match tryEntry kv (renderPH p ++ x) with
        | some q => some q
        | none => findMatch rest (renderPH p ++ x)) from rfl]
    rw [show tryEntry kv (renderPH p ++ x) =
        (match matchPH curlyOpen curlyClose kv.1 (renderPH p ++ x) with
        | some rest2 => some (kv.2, rest2)
        | none =>
          match matchPH dollarOpen dollarClose kv.1 (renderPH p ++ x) with
          | some rest2 => some (kv.2, rest2)
          | none => none) from rfl]
    rw [hcur, hdol]
    by_cases hkey : kv.1 = p.key
    · have hbeq : (kv.1 == p.key) = true := beq_iff_eq.mpr hkey
      have hlk : lookupKV (kv :: rest) p.key = some kv.2 := by
        simp [lookupKV, List.find?, hbeq]
      rw [hlk]
      cases hpf : p.form with
      | curly =>
        rw [if_pos (show PForm.curly = PForm.curly ∧ kv.1 = p.key from ⟨rfl, hkey⟩)]
        rfl
      | dollar =>
        rw [if_neg (show ¬(PForm.curly = PForm.dollar ∧ kv.1 = p.key) from
          fun hc => absurd hc.1 (by decide))]
        rw [if_pos (show PForm.dollar = PForm.dollar ∧ kv.1 = p.key from ⟨rfl, hkey⟩)]
        rfl
    · have hbeq : (kv.1 == p.key) = false := beq_eq_false_iff_ne.mpr hkey
      have hlk : lookupKV (kv :: rest) p.key = lookupKV rest p.key := by
        simp [lookupKV, List.find?, hbeq]
      rw [if_neg (show ¬(PForm.curly = p.form ∧ kv.1 = p.key) from fun hc => hkey hc.2)]
      rw [if_neg (show ¬(PForm.dollar = p.form ∧ kv.1 = p.key) from fun hc => hkey hc.2)]
      rw [hlk]
      exact ih hm2.1

lemma specScan_on_template (m : List (List Char × List Char)) (hm : mapWF m = true) :
    ∀ (t : List Seg), tmplWF t = true →
      scanSubC (findMatch m) (renderT t) = renderT (t.map (substSeg m)) := by
  intro t
  induction t with
  | nil => intro _; rfl
  | cons sg rest ih =>
    intro hwf
    obtain ⟨hsg, hrest⟩ := tmplWF_cons hwf
    rw [renderT_cons, List.map_cons, renderT_cons]
    cases sg with
    | lit s =>
      rw [show renderSeg (Seg.lit s) = s from rfl]
      rw [scanSubC_append_litFree (findMatch m) findMatch_dec findMatch_hfh
        (show litFree s = true from hsg)]
      rw [ih hrest]
      rfl
    | ph p =>
      rw [show renderSeg (Seg.ph p) = renderPH p from rfl]
      cases hlv : lookupKV m p.key with
      | some v =>
        have hmt : findMatch m (renderPH p ++ renderT rest) = some (v, renderT rest) := by
          rw [findMatch_render m hm p hsg (renderT rest), hlv]
          rfl
        rw [scanSubC_match_ne (findMatch m) findMatch_dec
          (renderPH_append_ne hsg (renderT rest)) hmt]
        rw [ih hrest]
        rw [show substSeg m (Seg.ph p) = Seg.lit v from by
          show (match lookupKV m p.key with
            | some v2 => Seg.lit v2
            | none => Seg.ph p) = Seg.lit v
          rw [hlv]]
        rfl
      | none =>
        have h0 : findMatch m (renderPH p ++ renderT rest) = none := by
          rw [findMatch_render m hm p hsg (renderT rest), hlv]
          rfl
        rw [scanSubC_skip_ph (findMatch m) findMatch_dec findMatch_hfh findMatch_hbrace
          p hsg (renderT rest) h0]
        rw [ih hrest]
        rw [show substSeg m (Seg.ph p) = Seg.ph p from by
          show (match lookupKV m p.key with
            | some v2 => Seg.lit v2
            | none => Seg.ph p) = Seg.ph p
          rw [hlv]]
        rfl

lemma foldl_map_subst (m : List (List Char × List Char)) :
    ∀ t : List Seg, m.foldl (fun t2 kv => t2.map (substSegKey kv.1 kv.2)) t =
      t.map (fun sg => m.foldl (fun sg2 kv => substSegKey kv.1 kv.2 sg2) sg) := by
  induction m with
  | nil =>
    intro t
    rw [List.foldl_nil]
    exact (List.map_id t).symm
  | cons kv rest ih =>
    intro t
    rw [List.foldl_cons, ih (t.map (substSegKey kv.1 kv.2)), List.map_map]
    rfl

lemma foldl_substSegKey_seg : ∀ (m : List (List Char × List Char)) (sg : Seg),
    m.foldl (fun sg2 kv => substSegKey kv.1 kv.2 sg2) sg = substSeg m sg := by
  intro m
  induction m with
  | nil =>
    intro sg
    rw [List.foldl_nil]
    cases sg with
    | lit s => rfl
    | ph p => rfl
  | cons kv rest ih =>
    intro sg
    rw [List.foldl_cons]
    cases sg with
    | lit s =>
      rw [show substSegKey kv.1 kv.2 (Seg.lit s) = Seg.lit s from rfl, ih (Seg.lit s)]
      rfl
    | ph p =>
      by_cases hk2 : kv.1 = p.key
      · have hbeq : (kv.1 == p.key) = true := beq_iff_eq.mpr hk2
        rw [show substSegKey kv.1 kv.2 (Seg.ph p) =
            (if kv.1 = p.key then Seg.lit kv.2 else Seg.ph p) from rfl, if_pos hk2]
        rw [ih (Seg.lit kv.2)]
        rw [show substSeg (kv :: rest) (Seg.ph p) =
            (match lookupKV (kv :: rest) p.key with
            | some v => Seg.lit v
            | none => Seg.ph p) from rfl]
        rw [show lookupKV (kv :: rest) p.key = some kv.2 from by
          simp [lookupKV, List.find?, hbeq]]
        rfl
      · have hbeq : (kv.1 == p.key) = false := beq_eq_false_iff_ne.mpr hk2
        rw [show substSegKey kv.1 kv.2 (Seg.ph p) =
            (if kv.1 = p.key then Seg.lit kv.2 else Seg.ph p) from rfl, if_neg hk2]
        rw [ih (Seg.ph p)]
        rw [show substSeg (kv :: rest) (Seg.ph p) =
            (match lookupKV (kv :: rest) p.key with
            | some v => Seg.lit v
            | none => Seg.ph p) from rfl]
        rw [show lookupKV (kv :: rest) p.key = lookupKV rest p.key from by
          simp [lookupKV, List.find?, hbeq]]
        rfl

lemma mapWF_cons {kv : List Char × List Char} {rest : List (List Char × List Char)}
    (h : mapWF (kv :: rest) = true) :
    wordList kv.1 = true ∧ litFree kv.2 = true ∧ mapWF rest = true := by
  rw [mapWF, List.all_cons] at h
  rcases Bool.and_eq_true_iff.mp h with ⟨h1, h2⟩
  rcases Bool.and_eq_true_iff.mp h1 with ⟨h1a, h1b⟩
  exact ⟨h1a, h1b, h2⟩

lemma substituteParameters_fold :
    ∀ (m : List (List Char × List Char)), mapWF m = true →
    ∀ (t : List Seg), tmplWF t = true →
      substituteParameters (renderT t) m =
        renderT (m.foldl (fun t2 kv => t2.map (substSegKey kv.1 kv.2)) t) := by
  intro m
  induction m with
  | nil => intro _ t _; rfl
  | cons kv rest ih =>
    intro hm t hwf
    obtain ⟨hk, hv, hrest⟩ := mapWF_cons hm
    rw [show substituteParameters (renderT t) (kv :: rest) =
        substituteParameters (substEntry (renderT t) kv) rest from rfl]
    rw [substEntry_on_template kv hk hv t hwf]
    rw [ih hrest (t.map (substSegKey kv.1 kv.2)) (tmplWF_map_substSegKey hv t hwf)]
    rfl

lemma substituteParameters_on_template (m : List (List Char × List Char))
    (hm : mapWF m = true) (t : List Seg) (hwf : tmplWF t = true) :
    substituteParameters (renderT t) m = renderT (t.map (substSeg m)) := by
  rw [substituteParameters_fold m hm t hwf, foldl_map_subst m t]
  rw [show (fun sg => m.foldl (fun sg2 kv => substSegKey kv.1 kv.2 sg2) sg) = substSeg m from
    funext (fun sg => foldl_substSegKey_seg m sg)]

/-- Claim C5 counterexample: the executor applies the value map entries
sequentially, rescanning each intermediate result, so a value that itself
contains placeholder text is substituted again by a later entry.  On the
template consisting of the single placeholder of name a, with the map
binding a to the five characters of a b-placeholder and b to 1, the
implementation yields 1, whereas the claimed per-key replacement that
leaves non-template text verbatim yields the b-placeholder text; the two
disagree, refuting the claim read over every template and map. -/
theorem c5_substitution_counterexample :
    substituteParameters ['{', '{', 'a', '}', '}']
        [(['a'], ['{', '{', 'b', '}', '}']), (['b'], ['1'])] = ['1'] ∧
    specSubstitute ['{', '{', 'a', '}', '}']
        [(['a'], ['{', '{', 'b', '}', '}']), (['b'], ['1'])] =
      ['{', '{', 'b', '}', '}'] ∧
    substituteParameters ['{', '{', 'a', '}', '}']
        [(['a'], ['{', '{', 'b', '}', '}']), (['b'], ['1'])] ≠
      specSubstitute ['{', '{', 'a', '}', '}']
        [(['a'], ['{', '{', 'b', '}', '}']), (['b'], ['1'])] := by
  refine ⟨by decide, by decide, by decide⟩

/-- Claim C5 (amended): on every segment-shaped template whose literal
text is free of placeholder openers and every value map with identifier
keys and delimiter-free values, the sequential substitution of the
executor coincides with the claimed simultaneous replacement: each
placeholder of either form whose name is a key of the map becomes that
key's first bound value, every other placeholder and all literal text is
left verbatim; moreover the two concrete renderings of the claim hold. -/
theorem c5_substitution_on_templates (m : List (List Char × List Char)) (t : List Seg)
    (hm : mapWF m = true) (ht : tmplWF t = true) :
    substituteParameters (renderT t) m = renderT (t.map (substSeg m)) ∧
    specSubstitute (renderT t) m = renderT (t.map (substSeg m)) ∧
    substituteParameters (renderT t) m = specSubstitute (renderT t) m ∧
    substituteParameters
      ['H', 'e', 'l', 'l', 'o', ',', ' ', '{', '{', 'n', 'a', 'm', 'e', '}', '}', '!']
      [(['n', 'a', 'm', 'e'], ['W', 'o', 'r', 'l', 'd'])] =
      ['H', 'e', 'l', 'l', 'o', ',', ' ', 'W', 'o', 'r', 'l', 'd', '!'] ∧
    substituteParameters ['$', '{', 'x', '}', '-', '$', '{', 'x', '}']
      [(['x'], ['1'])] = ['1', '-', '1'] := by
  have h1 : substituteParameters (renderT t) m = renderT (t.map (substSeg m)) :=
    substituteParameters_on_template m hm t ht
  have h2 : specSubstitute (renderT t) m = renderT (t.map (substSeg m)) :=
    specScan_on_template m hm t ht
  exact ⟨h1, h2, h1.trans h2.symm, by decide, by decide⟩

/-- Witness instantiating the amended substitution theorem on a concrete
template and map. -/
theorem c5_substitution_on_templates_witness :
    mapWF demoMap = true ∧ tmplWF demoTmpl = true ∧
    (substituteParameters (renderT demoTmpl) demoMap =
        renderT (demoTmpl.map (substSeg demoMap)) ∧
      specSubstitute (renderT demoTmpl) demoMap =
        renderT (demoTmpl.map (substSeg demoMap)) ∧
      substituteParameters (renderT demoTmpl) demoMap =
        specSubstitute (renderT demoTmpl) demoMap ∧
      substituteParameters
        ['H', 'e', 'l', 'l', 'o', ',', ' ', '{', '{', 'n', 'a', 'm', 'e', '}', '}', '!']
        [(['n', 'a', 'm', 'e'], ['W', 'o', 'r', 'l', 'd'])] =
        ['H', 'e', 'l', 'l', 'o', ',', ' ', 'W', 'o', 'r', 'l', 'd', '!'] ∧
      substituteParameters ['$', '{', 'x', '}', '-', '$', '{', 'x', '}']
        [(['x'], ['1'])] = ['1', '-', '1']) :=
  ⟨by decide, by decide,
    c5_substitution_on_templates demoMap demoTmpl (by decide) (by decide)⟩

/-- Claim C9 counterexample: the bullet for x carries a type hint and no
explicit required or optional token, and its description contains the
word required, so the claim makes the parameter required; with a type
hint present the parser only checks for the phrases (required) and is
required, so it yields required = false, refuting the claimed word-based
inference for every token-free bullet. -/
theorem c9_required_inference_counterexample :
    extractParameters demoDoc = [demoParam] ∧
    matchBulletLine ("- x (string): required.").data =
      some ("x".data, some "string".data, "required.".data) ∧
    explicitRequiredOf (some "string".data) = none ∧
    includesL "required".data (lowerL "required.".data) = true ∧
    claimedRequired "required.".data = true ∧
    isRequiredOf (some "string".data) "required.".data = false ∧
    ¬ (∀ (line nm : List Char) (th : Option (List Char)) (desc : List Char),
        matchBulletLine line = some (nm, th, desc) → explicitRequiredOf th = none →
        isRequiredOf th desc = claimedRequired desc) := by
  refine ⟨by decide, by decide, by decide, by decide, by decide, by decide, ?_⟩
  intro h
  have h2 := h ("- x (string): required.").data "x".data (some "string".data)
    "required.".data (by decide) (by decide)
  exact absurd h2 (by decide)

/-- Claim C9 (amended): every parameter the extractor produces comes from
a matched bullet line of the parameters section and carries the required
flag of the inference rule; the claimed word-based inference holds
exactly for token-free bullets without a type hint, with optional and
default taking precedence; for token-free bullets with a type hint the
parameter is required precisely when the description contains the phrase
(required) or the phrase is required. -/
theorem c9_required_inference (content : List Char) (pr : ParameterSchema)
    (hpr : pr ∈ extractParameters content) :
    (∃ sec line nm th desc, findSection content = some sec ∧
      line ∈ splitOnChar '\n' sec ∧ matchBulletLine line = some (nm, th, desc) ∧
      pr = paramOfMatch nm th desc ∧ pr.required = isRequiredOf th desc) ∧
    (∀ desc2 : List Char, isRequiredOf none desc2 = claimedRequired desc2) ∧
    (∀ (raw desc2 : List Char), explicitRequiredOf (some raw) = none →
      (isRequiredOf (some raw) desc2 = true ↔
        (includesL "(required)".data (lowerL desc2) = true ∨
         includesL "is required".data (lowerL desc2) = true))) := by
  refine ⟨?_, fun desc2 => rfl, ?_⟩
  · rw [extractParameters] at hpr
    cases hfs : findSection content with
    | none => rw [hfs] at hpr; simp at hpr
    | some sec =>
      rw [hfs] at hpr
      show ∃ sec2 line nm th desc, _
      rw [List.mem_filterMap] at hpr
      obtain ⟨l, hl, hfl⟩ := hpr
      cases hmb : matchBulletLine l with
      | none => rw [hmb] at hfl; simp at hfl
      | some q =>
        rw [hmb] at hfl
        simp at hfl
        exact ⟨sec, l, q.1, q.2.1, q.2.2, rfl, hl, hmb, hfl.symm, by rw [← hfl]; rfl⟩
  · intro raw desc2 hexp
    rw [show isRequiredOf (some raw) desc2 =
        (match explicitRequiredOf (some raw) with
        | some b => b
        | none =>
          includesL "(required)".data (lowerL desc2) ||
          includesL "is required".data (lowerL desc2)) from rfl]
    rw [hexp]
    show (includesL "(required)".data (lowerL desc2) ||
      includesL "is required".data (lowerL desc2)) = true ↔ _
    exact (Bool.or_eq_true _ _).to_iff

/-- Witness instantiating the amended requiredness theorem on the
demonstration document. -/
theorem c9_required_inference_witness :
    demoParam ∈ extractParameters demoDoc ∧
    ((∃ sec line nm th desc, findSection demoDoc = some sec ∧
      line ∈ splitOnChar '\n' sec ∧ matchBulletLine line = some (nm, th, desc) ∧
      demoParam = paramOfMatch nm th desc ∧ demoParam.required = isRequiredOf th desc) ∧
    (∀ desc2 : List Char, isRequiredOf none desc2 = claimedRequired desc2) ∧
    (∀ (raw desc2 : List Char), explicitRequiredOf (some raw) = none →
      (isRequiredOf (some raw) desc2 = true ↔
        (includesL "(required)".data (lowerL desc2) = true ∨
         includesL "is required".data (lowerL desc2) = true)))) :=
  ⟨by decide, c9_required_inference demoDoc demoParam (by decide)⟩

/-- Claim C1 counterexample: when the remote fetch fails for all three
candidate filenames of a link, the fetch function returns its null result
rather than throwing, the stub branch of the loop is never reached, and
the link is dropped from the output: against the claim, no stub skill is
synthesized, for any link list and in particular for the demonstration
link. -/
theorem c1_failed_fetch_drops_link :
    (∀ (links : List SkillLink) (ovr : List (List Char × POverride))
      (src : SourceKind) (now : Int),
      parseSkillsFromLinks (fun u => none) ovr src now links = []) ∧
    parseSkillsFromLinks (fun u => none) [] SourceKind.repository 0 [demoLink] = [] ∧
    ¬ createSkillStub SourceKind.repository 0 demoLink ∈
      parseSkillsFromLinks (fun u => none) [] SourceKind.repository 0 [demoLink] ∧
    (parseSkillsFromLinks (fun u => none) [] SourceKind.repository 0 [demoLink]).length =
      0 := by
  refine ⟨?_, by decide, by decide, by decide⟩
  intro links ovr src now
  induction links with
  | nil => rfl
  | cons l ls ih =>
    show List.filterMap _ (l :: ls) = []
    rw [List.filterMap_cons_none
      (show fetchSkillFromGitHub (fun u => none) ovr src now l = none from rfl)]
    exact ih


end AASM
